import Mathlib

/-!
# dde-daemon: system-information probe and user-data provisioner

A shallow embedding of `systeminfo/system_info.go` and `accounts/user_data.go`.

Conventions of the embedding.

* A Go `string` holding text is a `List Char` (the text is taken to be valid
  UTF-8, so that substring search and splitting by bytes and by characters
  agree).  D-Bus object paths and map keys, which the code only compares for
  equality, are `String`s.
* A Go `map` that the code iterates is the list of its entries in the order
  of the iteration; a lookup returns the entry of the first matching key.  A
  real map has pairwise different keys.
* `uint64` values are natural numbers, with `% 2 ^ 64` where the code adds or
  multiplies.
* A function returning `(T, error)` returns `Except Error T`; code that can
  stop with a run-time panic (a failed type assertion) returns a `Run`.
-/

namespace DdeDaemon

/-! ## Results -/

/-- The errors the two packages produce or pass on. -/
inductive Error where
  /-- `errFileNotExist` of `system_info.go`. -/
  | fileNotExist
  /-- `errValueNull` of `system_info.go`. -/
  | valueNull
  /-- An error of the operating system when a file is opened or read. -/
  | ioError
  /-- `strconv.ErrSyntax`, wrapped in a `*strconv.NumError`. -/
  | numSyntax
  /-- `strconv.ErrRange`, wrapped in a `*strconv.NumError`. -/
  | numRange
  /-- The error of `findDatasPath`: `Not found user datas '<path>'`. -/
  | notFound (data : List Char)
  /-- Any error of an external collaborator (bus, account database, file copy). -/
  | external (msg : String)
  /-- The error of `changeFileOwner`, made from the output of the subprocess. -/
  | subprocess (out : List Char)
  deriving DecidableEq, Repr

deriving instance DecidableEq for Except

/-- Outcome of running code that may panic: it returns a value or the
goroutine panics. -/
inductive Run (α : Type) where
  | ret (a : α)
  | panic
  deriving DecidableEq, Repr

namespace Run

/-- Sequencing: a panic of the first part is the panic of the whole. -/
def bind {α β : Type} : Run α → (α → Run β) → Run β
  | ret a, f => f a
  | panic, _ => panic

end Run

/-! ## The hardware-topology snapshot (`udisk.GetManagedObjects`) -/

/-- The dynamic value held by a `dbus.Variant`, as far as `getDiskCap` tells
the types apart. -/
inductive Value where
  | objectPath (p : String)
  | bool (b : Bool)
  | uint64 (n : Nat)
  | other
  deriving DecidableEq, Repr

/-- A property map `map[string]dbus.Variant`: an absent key reads as the zero
`Variant`, whose `Value()` is the nil interface (`none` of the lookup). -/
abbrev Props := List (String × Value)

/-- An object of the snapshot: `map[string]map[string]dbus.Variant`, from
interface name to property map. -/
abbrev Object := List (String × Props)

/-- The snapshot `map[dbus.ObjectPath]map[string]map[string]dbus.Variant`, in
the order in which `range` enumerates it. -/
abbrev Managers := List (String × Object)

/-- The interface name of block devices. -/
def blockIface : String := "org.freedesktop.UDisks2.Block"

/-- The interface name of drives. -/
def driveIface : String := "org.freedesktop.UDisks2.Drive"

/-- Indexing `m[k1][k2]` of a map of maps: indexing an absent (nil) inner map
gives the zero value, here `none`. -/
def index2 (m : Object) (k1 k2 : String) : Option Value :=
  match m.lookup k1 with
  | none => none
  | some props => props.lookup k2

/-- Indexing `managers[driver][iface][prop]`. -/
def index3 (managers : Managers) (driver iface prop : String) : Option Value :=
  match managers.lookup driver with
  | none => none
  | some obj => index2 obj iface prop

/-- The inner loop of `getDiskCap` (lines 189-196): `flag` after scanning
`driList` for `path`. -/
def inDriList (path : String) : List String → Bool
  | [] => false
  | d :: ds => if d = path then true else inDriList path ds

/-- The first loop of `getDiskCap` (lines 184-202), over the entries still to
be enumerated, with the drive list recorded so far. -/
def recordDrives : Managers → List String → Run (List String)
  | [], driList => .ret driList
  | (_, value) :: rest, driList =>
    match value.lookup blockIface with
    | none => recordDrives rest driList
    | some _ =>
      match index2 value blockIface "Drive" with
      | some (.objectPath path) =>
        if path ≠ "/" then
          if inDriList path driList then recordDrives rest driList
          else recordDrives rest (driList ++ [path])
        else recordDrives rest driList
      | _ => .panic

/-- The second loop of `getDiskCap` (lines 204-211), over the drives still to
be visited, with the running `diskCap`. -/
def sumDrives (managers : Managers) : List String → Nat → Run Nat
  | [], diskCap => .ret diskCap
  | driver :: rest, diskCap =>
    let driExist := (managers.lookup driver).isSome
    let rm := index3 managers driver driveIface "Removable"
    if driExist then
      match rm with
      | some (.bool b) =>
        if !b then
          match index3 managers driver driveIface "Size" with
          | some (.uint64 size) => sumDrives managers rest ((diskCap + size) % 2 ^ 64)
          | _ => .panic
        else sumDrives managers rest diskCap
      | _ => .panic
    else sumDrives managers rest diskCap

/-- The function `getDiskCap`.  Its argument is the result of
`udisks2.NewObjectManager` together with what `GetManagedObjects` then
delivers (the nil map, `[]`, when that call fails: its error is dropped). -/
def getDiskCap (udisk : Except Error Managers) : Run (Except Error Nat) :=
  match udisk with
  | .error err => .ret (.error err)
  | .ok managers =>
    (recordDrives managers []).bind fun driList =>
      (sumDrives managers driList 0).bind fun diskCap => .ret (.ok diskCap)

/-! ## The disk aggregation, in the words of the specification -/

/-- Whether the object exposes the `Block` interface. -/
def exposesBlock (obj : Object) : Bool := (obj.lookup blockIface).isSome

/-- The drive an object refers to: the object path in the `Drive` property of
its `Block` interface, when that path is not the sentinel `/`. -/
def driveRef (obj : Object) : Option String :=
  if exposesBlock obj then
    match index2 obj blockIface "Drive" with
    | some (.objectPath p) => if p ≠ "/" then some p else none
    | _ => none
  else none

/-- The drive paths reachable from a `Block.Drive` reference other than `/`
(with repetitions, one entry per referencing object). -/
def driveRefs (ms : Managers) : List String := ms.filterMap fun e => driveRef e.2

/-- An object is well typed for the first loop when, if it exposes `Block`,
its `Drive` property is present and holds an object path. -/
def blockTyped (obj : Object) : Bool :=
  !exposesBlock obj ||
    match index2 obj blockIface "Drive" with
    | some (.objectPath _) => true
    | _ => false

/-- A drive path is readable by the second loop when its object is absent
from the snapshot, or `Removable` holds a boolean and, for a drive that is
not removable, `Size` holds a `uint64`. -/
def driveOk (ms : Managers) (p : String) : Bool :=
  match ms.lookup p with
  | none => true
  | some _ =>
    match index3 ms p driveIface "Removable" with
    | some (.bool true) => true
    | some (.bool false) =>
      match index3 ms p driveIface "Size" with
      | some (.uint64 _) => true
      | _ => false
    | _ => false

/-- The snapshots on which the aggregation runs to its end: every object
exposing `Block` is well typed and every referenced drive is readable. -/
def Completes (ms : Managers) : Prop :=
  (∀ e ∈ ms, blockTyped e.2 = true) ∧ ∀ p ∈ driveRefs ms, driveOk ms p = true

instance instDecidableCompletes (ms : Managers) : Decidable (Completes ms) := by
  unfold Completes; infer_instance

/-- The drive at `p` has `Removable == false`. -/
def isFixed (ms : Managers) (p : String) : Bool :=
  index3 ms p driveIface "Removable" = some (.bool false)

/-- The `Size` of the drive at `p` (0 when there is none to read). -/
def sizeOf (ms : Managers) (p : String) : Nat :=
  match index3 ms p driveIface "Size" with
  | some (.uint64 n) => n
  | _ => 0

/-- The specification's `Σ drive.Size` over the set of referenced drive paths,
restricted to the drives with `Removable == false`; a sum of natural numbers,
with no wrap-around. -/
def specDiskCap (ms : Managers) : Nat :=
  ∑ p ∈ (driveRefs ms).toFinset.filter (fun p => isFixed ms p = true), sizeOf ms p

/-- The snapshot of the scenario Probe-disk-dedup. -/
def probeDedup : Managers :=
  [("/b/a", [(blockIface, [("Drive", .objectPath "/d/X")])]),
   ("/b/b", [(blockIface, [("Drive", .objectPath "/d/X")])]),
   ("/b/c", [(blockIface, [("Drive", .objectPath "/d/Y")])]),
   ("/d/X", [(driveIface, [("Removable", .bool false), ("Size", .uint64 500)])]),
   ("/d/Y", [(driveIface, [("Removable", .bool true), ("Size", .uint64 1000)])])]

/-! ## Auxiliary definitions for the disk aggregation -/

/-- The drive list after one more object, when the object is well typed. -/
def addDrive (acc : List String) (obj : Object) : List String :=
  match driveRef obj with
  | some p => if p ∈ acc then acc else acc ++ [p]
  | none => acc

/-- The drive list the first loop records on a well-typed snapshot. -/
def recorded (ms : Managers) (acc : List String) : List String :=
  ms.foldl (fun a e => addDrive a e.2) acc

/-- What a drive adds to the running sum. -/
def contribution (ms : Managers) (p : String) : Nat :=
  if isFixed ms p = true then sizeOf ms p else 0

/-! ## Assembly of the probe (`NewSystemInfo`) -/

/-- The record `SystemInfo` (its logger apart). -/
structure SystemInfo where
  Version : List Char
  Processor : List Char
  DiskCap : Nat
  MemoryCap : Nat
  SystemType : Int
  deriving DecidableEq, Repr

/-- A line `NewSystemInfo` writes to its logger. -/
inductive LogEntry where
  | warning (err : Error)
  | error (err : Error)
  deriving DecidableEq, Repr

/-- Lines 236-260 of `NewSystemInfo`: the processor, memory, system-type and
disk steps, run in this order once the version is known.  A step is given by
the result it has when it is run; the step after a failing one is not run. -/
def gatherRest (logs : List LogEntry) (version : List Char)
    (cpu : Except Error (List Char)) (mem : Except Error Nat)
    (sysType : Except Error Int) (disk : Run (Except Error Nat)) :
    Run (List LogEntry × Option SystemInfo) :=
  match cpu with
  | .error err => .ret (logs ++ [.error err], none)
  | .ok processor =>
    match mem with
    | .error err => .ret (logs ++ [.error err], none)
    | .ok memoryCap =>
      match sysType with
      | .error err => .ret (logs ++ [.error err], none)
      | .ok systemType =>
        match disk with
        | .panic => .panic
        | .ret (.error err) => .ret (logs ++ [.error err], none)
        | .ret (.ok diskCap) =>
          .ret (logs, some
            { Version := version, Processor := processor, DiskCap := diskCap,
              MemoryCap := memoryCap, SystemType := systemType })

/-- The function `NewSystemInfo`, over the results of its gathering steps:
`deepin` is `getVersionFromDeepin("/etc/deepin-version")`, `lsb` is
`getVersionFromLsb("/etc/lsb-release")`, then the four later steps.  It
returns what was logged and the instance (`none` for the nil pointer), or
panics when the disk step does. -/
def NewSystemInfo (deepin lsb : Except Error (List Char))
    (cpu : Except Error (List Char)) (mem : Except Error Nat)
    (sysType : Except Error Int) (disk : Run (Except Error Nat)) :
    Run (List LogEntry × Option SystemInfo) :=
  match deepin with
  | .ok version => gatherRest [] version cpu mem sysType disk
  | .error err =>
    match lsb with
    | .error err2 => .ret ([.warning err, .error err2], none)
    | .ok version => gatherRest [.warning err] version cpu mem sysType disk

/-! ## Snapshots used as examples -/

/-- Two fixed drives of `2 ^ 63` bytes each. -/
def twoHugeDrives : Managers :=
  [("/b/a", [(blockIface, [("Drive", .objectPath "/d/X")])]),
   ("/b/b", [(blockIface, [("Drive", .objectPath "/d/Y")])]),
   ("/d/X", [(driveIface, [("Removable", .bool false), ("Size", .uint64 (2 ^ 63))])]),
   ("/d/Y", [(driveIface, [("Removable", .bool false), ("Size", .uint64 (2 ^ 63))])])]

/-- One block device on one fixed drive of 500 bytes. -/
def oneDrive : Managers :=
  [("/b/0", [(blockIface, [("Drive", .objectPath "/d/X")])]),
   ("/d/X", [(driveIface, [("Removable", .bool false), ("Size", .uint64 500)])])]

/-- Nine further block devices on the drive of `oneDrive`. -/
def nineBlocks : Managers :=
  ["/b/1", "/b/2", "/b/3", "/b/4", "/b/5", "/b/6", "/b/7", "/b/8", "/b/9"].map
    fun k => (k, [(blockIface, [("Drive", .objectPath "/d/X")])])

/-- A block device whose drive path names an object that is in the snapshot
but exposes no `Drive` interface (only a `Filesystem` one). -/
def drivelessObject : Managers :=
  [("/b/a", [(blockIface, [("Drive", .objectPath "/d/X")])]),
   ("/d/X", [("org.freedesktop.UDisks2.Filesystem", [])])]

/-- The snapshot without the objects whose `Block.Drive` is `p`. -/
def withoutBlocksOf (p : String) (ms : Managers) : Managers :=
  ms.filter fun e => driveRef e.2 ≠ some p

/-- The snapshot without the object at path `p`. -/
def withoutObject (p : String) (ms : Managers) : Managers :=
  ms.filter fun e => e.1 ≠ p

/-- A removable drive whose `Drive` interface has no `Size` property. -/
def removableNoSize : Managers :=
  [("/b/a", [(blockIface, [("Drive", .objectPath "/d/X")])]),
   ("/d/X", [(driveIface, [("Removable", .bool true)])])]

/-- A drive whose `Drive` interface has no `Removable` property. -/
def noRemovable : Managers :=
  [("/b/a", [(blockIface, [("Drive", .objectPath "/d/X")])]),
   ("/d/X", [(driveIface, [("Size", .uint64 500)])])]

/-- One block device on a fixed drive of 500 bytes, and a block device whose
drive path `/b/1` names no object of the snapshot. -/
def danglingRef : Managers :=
  [("/b/0", [(blockIface, [("Drive", .objectPath "/d/X")])]),
   ("/b/2", [(blockIface, [("Drive", .objectPath "/b/1")])]),
   ("/d/X", [(driveIface, [("Removable", .bool false), ("Size", .uint64 500)])])]

/-- A block device on the drive `/d/X`, at the path `/b/1`. -/
def blockAtRef : String × Object :=
  ("/b/1", [(blockIface, [("Drive", .objectPath "/d/X")])])

/-- An object at the path `/b/1` that is a block device on the drive `/d/X`
and exposes a `Drive` interface of its own, fixed, of 7 bytes. -/
def blockDriveAtRef : String × Object :=
  ("/b/1", [(blockIface, [("Drive", .objectPath "/d/X")]),
    (driveIface, [("Removable", .bool false), ("Size", .uint64 7)])])

/-! ## The Go library functions the code calls

Models of `strings.Contains`, `strings.Split`, `strings.TrimSpace`,
`strconv.ParseUint`, `bufio.Scanner` with `bufio.ScanLines`, the regular
expression `^LANG=(.*)`, `path.Clean` and `path.Join`, written from the
documented behaviour of the Go standard library. -/

/-- The call `strings.Contains(s, substr)`: `substr` starts at some position
of `s`. -/
def stringsContains : List Char → List Char → Bool
  | [], substr => substr.isEmpty
  | c :: s, substr => substr.isPrefixOf (c :: s) || stringsContains s substr

/-- Puts a character in front of the first piece. -/
def consHead (c : Char) : List (List Char) → List (List Char)
  | [] => [[c]]
  | piece :: pieces => (c :: piece) :: pieces

/-- Splitting at the leftmost occurrences of a non-empty separator, one after
the other; `skip` counts the characters of an occurrence still to be passed
over. -/
def splitFrom (sep : List Char) : Nat → List Char → List (List Char)
  | _, [] => [[]]
  | skip + 1, _ :: s => splitFrom sep skip s
  | 0, c :: s =>
    if sep.isPrefixOf (c :: s) then [] :: splitFrom sep (sep.length - 1) s
    else consHead c (splitFrom sep 0 s)

/-- The call `strings.Split(s, sep)`: with an empty separator the string is
cut after each character, otherwise at each occurrence of the separator. -/
def stringsSplit (s sep : List Char) : List (List Char) :=
  if sep = [] then s.map fun c => [c] else splitFrom sep 0 s

/-- The predicate `unicode.IsSpace`. -/
def isSpace (c : Char) : Bool :=
  c.toNat ∈ [0x09, 0x0A, 0x0B, 0x0C, 0x0D, 0x20, 0x85, 0xA0, 0x1680, 0x2028, 0x2029, 0x202F,
    0x205F, 0x3000] || (0x2000 ≤ c.toNat && c.toNat ≤ 0x200A)

/-- The call `strings.TrimSpace(s)`: leading and trailing white space removed. -/
def stringsTrimSpace (s : List Char) : List Char :=
  ((s.dropWhile isSpace).reverse.dropWhile isSpace).reverse

/-- The value of a decimal digit. -/
def digitVal (c : Char) : Option Nat :=
  if 48 ≤ c.toNat ∧ c.toNat ≤ 57 then some (c.toNat - 48) else none

/-- The digit loop of `strconv.ParseUint(s, 10, 64)`, with the value read so
far. -/
def parseUintLoop : List Char → Nat → Except Error Nat
  | [], n => .ok n
  | c :: s, n =>
    match digitVal c with
    | none => .error .numSyntax
    | some d =>
      if 2 ^ 64 ≤ n * 10 + d then .error .numRange else parseUintLoop s (n * 10 + d)

/-- The call `strconv.ParseUint(s, 10, 64)`. -/
def strconvParseUint (s : List Char) : Except Error Nat :=
  if s = [] then .error .numSyntax else parseUintLoop s 0

/-- The constant `bufio.MaxScanTokenSize`. -/
def maxScanTokenSize : Nat := 64 * 1024

/-- The length `len(s)` of a Go string: its number of bytes in UTF-8. -/
def byteLen (s : List Char) : Nat := (s.map Char.utf8Size).sum

/-- The helper `dropCR` of `bufio.ScanLines`: one trailing `\r` removed. -/
def dropCR (data : List Char) : List Char :=
  if data.getLast? = some '\r' then data.dropLast else data

/-- The tokens a `bufio.Scanner` with `bufio.ScanLines` delivers, from the
pieces between the newlines of the input: each piece without its trailing
`\r`; an empty last piece is no token; the scanner stops (`ErrTooLong`) at
the first piece that does not fit its buffer of `MaxScanTokenSize` bytes. -/
def scanTokens : List (List Char) → List (List Char)
  | [] => []
  | [last] =>
    if last = [] then [] else if byteLen last < maxScanTokenSize then [dropCR last] else []
  | piece :: rest =>
    if byteLen piece < maxScanTokenSize then dropCR piece :: scanTokens rest else []

/-- The lines `scanner.Scan()` / `scanner.Text()` deliver for a file content. -/
def scanLines (content : List Char) : List (List Char) :=
  scanTokens (stringsSplit content ['\n'])

/-- The call `match.FindStringSubmatch(line)` for the expression
`^LANG=(.*)`: `none` (nil) when the line does not start with `LANG=`,
otherwise the whole match and the group, which runs to the end of the line
(`.` matches every character but the newline). -/
def findStringSubmatch (line : List Char) : Option (List (List Char)) :=
  if ['L', 'A', 'N', 'G', '='].isPrefixOf line then
    let group := (line.drop 5).takeWhile fun c => c ≠ '\n'
    some [['L', 'A', 'N', 'G', '='] ++ group, group]
  else none

/-- One step of `path.Clean` on the stack of path elements kept so far (last
element first): empty and `.` elements are dropped, `..` removes the element
before it, is dropped at the root, and is kept where a relative path cannot
go further back. -/
def cleanStep (rooted : Bool) (stack : List (List Char)) (elem : List Char) :
    List (List Char) :=
  if elem = [] ∨ elem = ['.'] then stack
  else if elem = ['.', '.'] then
    match stack with
    | [] => if rooted then [] else [elem]
    | top :: below => if top = ['.', '.'] then elem :: stack else below
  else elem :: stack

/-- The call `path.Clean(path)`. -/
def pathClean (path : List Char) : List Char :=
  if path = [] then ['.']
  else
    let rooted := path.head? = some '/'
    let elems := ((stringsSplit path ['/']).foldl (cleanStep rooted) []).reverse
    let body := ['/'].intercalate elems
    if rooted then '/' :: body else if body = [] then ['.'] else body

/-- The call `path.Join(elem...)`: the elements from the first non-empty one
on, joined by slashes and cleaned; the empty string when all are empty. -/
def pathJoin (elem : List (List Char)) : List Char :=
  match elem.dropWhile fun e => e = [] with
  | [] => []
  | es => pathClean (['/'].intercalate es)

/-! ## `system_info.go`: the text sources -/

/-- The loop of `getValueByKeyFromFile` (lines 137-146) over the lines still
to be read: `value` when the loop is left. -/
def valueLoop (key delim : List Char) : List (List Char) → List Char
  | [] => []
  | line :: rest =>
    if stringsContains line key then
      let fields := stringsSplit line delim
      if fields.length ≠ 2 then [] else fields.getD 1 []
    else valueLoop key delim rest

/-- The function `getValueByKeyFromFile`; `file` is what `ioutil.ReadFile`
gives for the file name. -/
def getValueByKeyFromFile (file : Except Error (List Char)) (key delim : List Char) :
    Except Error (List Char) :=
  match file with
  | .error err => .error err
  | .ok contents => .ok (valueLoop key delim (stringsSplit contents ['\n']))

/-- The function `getMemoryCapFromFile`; `exist` is `dutils.IsFileExist` of
the file and `file` what reading it gives. -/
def getMemoryCapFromFile (exist : Bool) (file : Except Error (List Char)) :
    Except Error Nat :=
  if !exist then .error .fileNotExist
  else
    match getValueByKeyFromFile file "MemTotal".toList [':'] with
    | .error err => .error err
    | .ok value =>
      let value := stringsTrimSpace value
      if value.length = 0 then .error .valueNull
      else
        let vars := stringsSplit value [' ']
        let value := vars.getD 0 []
        match strconvParseUint value with
        | .error err => .error err
        | .ok caps => .ok (caps * 1024 % 2 ^ 64)

/-! ## `user_data.go` -/

/-- The constant `defaultLang`. -/
def defaultLang : List Char := "en_US".toList

/-- The constant `defaultLocaleFile`. -/
def defaultLocaleFile : List Char := "/etc/default/locale".toList

/-- The constant `userDataCommon`. -/
def userDataCommon : List Char := "deepin-default-settings/skel.common".toList

/-- The value of `fmt.Sprintf(userDataLang, lang)`. -/
def userDataLang (lang : List Char) : List Char :=
  "deepin-default-settings/skel.".toList ++ lang

/-- The loop of `getDefaultLocale` (lines 107-116) over the lines the scanner
still delivers: `locale` when the loop is left. -/
def localeLoop : List (List Char) → List Char
  | [] => []
  | line :: rest =>
    let fields := (findStringSubmatch line).getD []
    if fields.length < 2 then localeLoop rest else fields.getD 1 []

/-- The function `getDefaultLocale`; `file` is what `os.Open` gives, with the
content that reading the opened file delivers. -/
def getDefaultLocale (file : Except Error (List Char)) : Except Error (List Char) :=
  match file with
  | .error err => .error err
  | .ok content => .ok ((stringsSplit (localeLoop (scanLines content)) ['.']).getD 0 [])

/-- The function `findDatasPath`; `isFileExist` is `dutils.IsFileExist` on the
file system at the time of the call. -/
def findDatasPath (isFileExist : List Char → Bool) (config : List Char) :
    Except Error (List Char) :=
  let data := pathJoin ["/usr/local/share".toList, config]
  if isFileExist data then .ok data
  else
    let data := pathJoin ["/usr/share".toList, config]
    if isFileExist data then .ok data
    else .error (.notFound data)

/-- The fields of `users.UserInfo` that `copyUserDatas` reads. -/
structure UserInfo where
  Name : List Char
  Home : List Char
  deriving DecidableEq, Repr

/-- What `copyUserDatas` does that is visible from outside, in the order in
which it happens. -/
inductive Event where
  /-- A line of `logger.Warningf`. -/
  | warning
  /-- A line of `logger.Debugf`. -/
  | debug
  /-- A call `findDatasPath(config)`. -/
  | lookup (config : List Char)
  /-- A call `dutils.CopyDir(src, dst)`. -/
  | copyDir (src dst : List Char)
  /-- A run of the command `chown` with these arguments. -/
  | chown (args : List (List Char))
  deriving DecidableEq, Repr

/-- The host the provisioner runs on, with states `σ`: the account database,
the file system, the recursive copy and the `chown` subprocess.  The two
actions give their result and the state they leave. -/
structure Host (σ : Type) where
  /-- The function `getUidFromUserPath` of the package. -/
  getUidFromUserPath : List Char → List Char
  /-- The call `users.GetUserInfoByUid(uid)`. -/
  getUserInfoByUid : σ → List Char → Except Error UserInfo
  /-- The call `os.Open(name)`, with the content of the opened file. -/
  openFile : σ → List Char → Except Error (List Char)
  /-- The call `dutils.IsFileExist(name)`. -/
  isFileExist : σ → List Char → Bool
  /-- The call `dutils.CopyDir(src, dst)`. -/
  copyDir : σ → List Char → List Char → Except Error Unit × σ
  /-- The call `exec.Command("chown", args...).CombinedOutput()`: the output,
  whether the command failed, and the state it leaves. -/
  chown : σ → List (List Char) → (List Char × Bool) × σ

/-- The function `copyCommonDatas`, with the events of the call. -/
def copyCommonDatas {σ : Type} (host : Host σ) (s : σ) (home : List Char) :
    List Event × Except Error Unit × σ :=
  match findDatasPath (host.isFileExist s) userDataCommon with
  | .error err => ([.lookup userDataCommon], .error err, s)
  | .ok data =>
    let r := host.copyDir s data home
    ([.lookup userDataCommon, .copyDir data home], r.1, r.2)

/-- The function `copyDatasByLang`, with the events of the call. -/
def copyDatasByLang {σ : Type} (host : Host σ) (s : σ) (home lang : List Char) :
    List Event × Except Error Unit × σ :=
  match findDatasPath (host.isFileExist s) (userDataLang lang) with
  | .error err => ([.lookup (userDataLang lang)], .error err, s)
  | .ok data =>
    let r := host.copyDir s data home
    ([.lookup (userDataLang lang), .copyDir data home], r.1, r.2)

/-- The function `changeFileOwner`, with the events of the call. -/
def changeFileOwner {σ : Type} (host : Host σ) (s : σ) (file owner group : List Char) :
    List Event × Except Error Unit × σ :=
  let args := ["-hR".toList, owner ++ [':'] ++ group, file]
  let r := host.chown s args
  ([.chown args], if r.1.2 then .error (.subprocess r.1.1) else .ok (), r.2)

/-- The events of a log line written when `r` is an error. -/
def logIfError (entry : Event) (r : Except Error Unit) : List Event :=
  match r with
  | .error _ => [entry]
  | .ok _ => []

/-- The language `copyUserDatas` settles on (lines 32-35): the tag that
`getDefaultLocale` returned, or `defaultLang` when it has length 0 (as it has
when an error is returned with it). -/
def chosenLang (r : Except Error (List Char)) : List Char :=
  let lang := match r with
    | .ok lang => lang
    | .error _ => []
  if lang.length = 0 then defaultLang else lang

/-- The method `copyUserDatas`: the events of the call and the state of the
host it leaves.  It returns nothing to its caller. -/
def copyUserDatas {σ : Type} (host : Host σ) (s : σ) (uPath : List Char) :
    List Event × σ :=
  let uid := host.getUidFromUserPath uPath
  match host.getUserInfoByUid s uid with
  | .error _ => ([.warning], s)
  | .ok info =>
    let lang := chosenLang (getDefaultLocale (host.openFile s defaultLocaleFile))
    let c := copyCommonDatas host s info.Home
    let l := copyDatasByLang host c.2.2 info.Home lang
    let o := changeFileOwner host l.2.2 info.Home info.Name info.Name
    (c.1 ++ logIfError .debug c.2.1 ++ l.1 ++ logIfError .debug l.2.1 ++ o.1 ++
      logIfError .warning o.2.1, o.2.2)

/-! ## The text sources, in the words of the specification -/

/-- Splitting at each occurrence of one character. -/
def splitChar (c : Char) : List Char → List (List Char)
  | [] => [[]]
  | x :: s => if x = c then [] :: splitChar c s else consHead x (splitChar c s)

/-- The lines of a file content read as a whole: the pieces between its
newline characters. -/
def linesOf (contents : List Char) : List (List Char) := splitChar '\n' contents

/-- The right-hand side of a line for a delimiter: the second part when
splitting the line on the delimiter yields exactly two parts, the empty
string for any other number of parts. -/
def rightHandSide (line delim : List Char) : List Char :=
  match stringsSplit line delim with
  | [_, rhs] => rhs
  | _ => []

/-- The specification's `ReadKey`: the right-hand side of the first line that
contains `key`, the empty string when no line does. -/
def specReadKey (contents key delim : List Char) : List Char :=
  match (linesOf contents).find? fun line => stringsContains line key with
  | none => []
  | some line => rightHandSide line delim

/-- The value of a string of decimal digits. -/
def decimalValue (digits : List Char) : Nat :=
  digits.foldl (fun n c => n * 10 + (c.toNat - 48)) 0

/-- A string of decimal digits. -/
def IsDecimal (digits : List Char) : Prop :=
  digits ≠ [] ∧ ∀ c ∈ digits, 48 ≤ c.toNat ∧ c.toNat ≤ 57

instance instDecidableIsDecimal (digits : List Char) : Decidable (IsDecimal digits) := by
  unfold IsDecimal; infer_instance

/-- The decimal digits of a number, without leading zeros. -/
def decimalOf (n : Nat) : List Char :=
  if h : n < 10 then [Char.ofNat (48 + n)]
  else decimalOf (n / 10) ++ [Char.ofNat (48 + n % 10)]
decreasing_by omega

/-- The line `MemTotal:<spaces>N kB` of the meminfo file, for `k` spaces and
the digits of `N`. -/
def memTotalLine (k : Nat) (digits : List Char) : List Char :=
  "MemTotal:".toList ++ List.replicate k ' ' ++ digits ++ " kB".toList

/-- The line starts with `LANG=`, that is, matches `^LANG=(.*)`. -/
def startsWithLang (line : List Char) : Bool := ['L', 'A', 'N', 'G', '='].isPrefixOf line

/-- The locale tag of a list of lines: the text preceding the first `.` in
the right-hand side of the first line starting with `LANG=` (the whole
right-hand side when it has no `.`), the empty string when there is no such
line. -/
def localeOfLines (lines : List (List Char)) : List Char :=
  match lines.find? startsWithLang with
  | none => []
  | some line => (line.drop 5).takeWhile fun c => c ≠ '.'

/-- The lines of a text file: the pieces between its newlines, each without
the `\r` of a `\r\n` line end. -/
def textLines (content : List Char) : List (List Char) := (linesOf content).map dropCR

/-- The lines of a text file up to the first line of `MaxScanTokenSize` bytes
or more (that line and the following ones left out). -/
def deliveredLines (content : List Char) : List (List Char) :=
  ((linesOf content).takeWhile fun l => decide (byteLen l < maxScanTokenSize)).map dropCR

/-- A file whose first line is 65536 times the letter `x` and whose second
line is `LANG=fr_FR.UTF-8`. -/
def longLineLocale : List Char :=
  List.replicate 65536 'x' ++ '\n' :: "LANG=fr_FR.UTF-8".toList

/-- A path element that `path.Clean` keeps as it is: not empty, not `.` and
not `..`. -/
def IsPlainElem (e : List Char) : Prop := e ≠ [] ∧ e ≠ ['.'] ∧ e ≠ ['.', '.']

instance instDecidableIsPlainElem (e : List Char) : Decidable (IsPlainElem e) := by
  unfold IsPlainElem; infer_instance

/-- A relative name made of plain elements only, such as
`deepin-default-settings/skel.common`. -/
def IsPlainPath (rel : List Char) : Prop := ∀ e ∈ splitChar '/' rel, IsPlainElem e

instance instDecidableIsPlainPath (rel : List Char) : Decidable (IsPlainPath rel) := by
  unfold IsPlainPath; infer_instance

/-- A relative name with no `..` element. -/
def NoDotDot (rel : List Char) : Prop := ∀ e ∈ splitChar '/' rel, e ≠ ['.', '.']

instance instDecidableNoDotDot (rel : List Char) : Decidable (NoDotDot rel) := by
  unfold NoDotDot; infer_instance

/-- The file system in which only `/etc/passwd` exists. -/
def onlyPasswd (name : List Char) : Bool := name = "/etc/passwd".toList

/-- The file system in which only the two skeletons under `/usr/share`
exist. -/
def shareOnly (name : List Char) : Bool :=
  name = "/usr/share/deepin-default-settings/skel.common".toList ∨
    name = "/usr/share/deepin-default-settings/skel.fr_FR".toList

/-- The file system in which `skel.common` exists under both prefixes. -/
def bothExist (name : List Char) : Bool :=
  name = "/usr/share/deepin-default-settings/skel.common".toList ∨
    name = "/usr/local/share/deepin-default-settings/skel.common".toList

/-- The arguments of the calls of `findDatasPath` among the events, in
order: the skeletons that are looked up. -/
def lookups (events : List Event) : List (List Char) :=
  events.filterMap fun e =>
    match e with
    | .lookup config => some config
    | _ => none

/-- A host with the account `alice` (uid 1001), the skeletons of `shareOnly`,
a copy and a `chown` that succeed, and the locale file given by `locale`. -/
def aliceHost (locale : Except Error (List Char)) : Host Unit where
  getUidFromUserPath := fun uPath => uPath.drop 32
  getUserInfoByUid := fun _ uid =>
    if uid = "1001".toList then .ok { Name := "alice".toList, Home := "/home/alice".toList }
    else .error (.external "no such user")
  openFile := fun _ name => if name = defaultLocaleFile then locale else .error .ioError
  isFileExist := fun _ name => shareOnly name
  copyDir := fun s _ _ => (.ok (), s)
  chown := fun s _ => (([], false), s)

/-- The object path of the account `alice`. -/
def alicePath : List Char := "/com/deepin/daemon/Accounts/User1001".toList

/-- The lines give no tag: none of them starts with `LANG=`, or the first
that does has an empty right-hand side or one starting with `.`. -/
def noLangTag (lines : List (List Char)) : Bool :=
  match lines.find? startsWithLang with
  | none => true
  | some line => decide (line.drop 5 = []) || decide ((line.drop 5).head? = some '.')

/-! ## `system_info.go`: processor, version, system type, life cycle -/

/-- The decimal digits of `n`, by a recursion on `fuel`, which is complete
when `n < fuel`. -/
def digitsFuel : Nat → Nat → List Char
  | 0, _ => []
  | fuel + 1, n =>
    if n < 10 then [Char.ofNat (48 + n)]
    else digitsFuel fuel (n / 10) ++ [Char.ofNat (48 + n % 10)]

/-- The text `fmt.Sprintf("%v", cnt)` of a count (an `int` that is not
negative): its decimal digits. -/
def formatInt (n : Nat) : List Char := digitsFuel (n + 1) n

/-- The loop of `getCPUInfoFromFile` (lines 48-59) over the lines still to be
read, with `info` and `cnt` so far: their values when the loop is left. -/
def cpuLoop : List (List Char) → List Char → Nat → List Char × Nat
  | [], info, cnt => (info, cnt)
  | line :: rest, info, cnt =>
    if stringsContains line "model name".toList then
      let vars := stringsSplit line [':']
      if vars.length ≠ 2 then (info, cnt)
      else cpuLoop rest (if info.length = 0 then info ++ vars.getD 1 [] else info) (cnt + 1)
    else cpuLoop rest info cnt

/-- The function `getCPUInfoFromFile`; `exist` is `dutils.IsFileExist` of the
file and `file` what `ioutil.ReadFile` gives. -/
def getCPUInfoFromFile (exist : Bool) (file : Except Error (List Char)) :
    Except Error (List Char) :=
  if !exist then .error .fileNotExist
  else
    match file with
    | .error err => .error err
    | .ok contents =>
      let r := cpuLoop (stringsSplit contents ['\n']) [] 0
      let info := if r.2 > 1 then r.1 ++ " x ".toList ++ formatInt r.2 else r.1
      .ok (stringsTrimSpace info)

/-- The function `getVersionFromDeepin`.  The key file is read by glib:
`load` is the result of `kFile.LoadFromFile`, `version` that of
`kFile.GetString("Release", "Version")` and `t` that of
`kFile.GetLocaleString("Release", "Type", "\x00")`. -/
def getVersionFromDeepin (exist : Bool) (load : Except Error Unit)
    (version t : Except Error (List Char)) : Except Error (List Char) :=
  if !exist then .error .fileNotExist
  else
    match load with
    | .error err => .error err
    | .ok _ =>
      match version with
      | .error err => .error err
      | .ok version =>
        match t with
        | .error err => .error err
        | .ok t => .ok (version ++ [' '] ++ t)

/-- The function `getVersionFromLsb`. -/
def getVersionFromLsb (exist : Bool) (file : Except Error (List Char)) :
    Except Error (List Char) :=
  if !exist then .error .fileNotExist
  else
    match getValueByKeyFromFile file "DISTRIB_RELEASE".toList ['='] with
    | .error err => .error err
    | .ok value => .ok value

/-- The function `unicode.ToLower`: the letters `A` to `Z` of ASCII are
shifted to `a` to `z`, the other ASCII characters are kept, and a character
beyond ASCII is mapped by the case table of the `unicode` package, `table`. -/
def unicodeToLower (table : Char → Char) (c : Char) : Char :=
  if c.toNat ≤ 127 then
    if 65 ≤ c.toNat ∧ c.toNat ≤ 90 then Char.ofNat (c.toNat + 32) else c
  else table c

/-- The call `strings.ToLower(s)`. -/
def stringsToLower (table : Char → Char) (s : List Char) : List Char :=
  s.map (unicodeToLower table)

/-- The function `getSystemType`; `out` is the result of running
`/bin/sh -c "/bin/uname -m"` (`cmd.Output()`). -/
def getSystemType (table : Char → Char) (out : Except Error (List Char)) :
    Except Error Int :=
  match out with
  | .error err => .error err
  | .ok out =>
    let str := stringsToLower table out
    if stringsContains str "i386".toList || stringsContains str "i586".toList ||
        stringsContains str "i686".toList then .ok 32
    else if stringsContains str "x86_64".toList then .ok 64
    else .ok 0

/-- What `Start` and `Stop` do besides changing `_sysInfo`. -/
inductive ProbeEffect where
  /-- The call `logger.BeginTracing()`. -/
  | beginTracing
  /-- The call `NewSystemInfo(logger)`. -/
  | newSystemInfo
  /-- The call `dbus.InstallOnSession(_sysInfo)`. -/
  | installOnSession (obj : Option SystemInfo)
  /-- The call `logger.Error(err)`. -/
  | logError
  /-- The call `EndTracing()` of the logger. -/
  | endTracing
  /-- The call `dbus.UnInstallObject(_sysInfo)`. -/
  | unInstallObject (obj : SystemInfo)
  deriving DecidableEq, Repr

/-- The function `Start`, on the value of the variable `_sysInfo` (`none` for
nil): what it does and the value it leaves.  `newSystemInfo` is the outcome
of the call of `NewSystemInfo` and `installOnSession` the result of
`dbus.InstallOnSession` for the object it is given. -/
def Start (newSystemInfo : Run (List LogEntry × Option SystemInfo))
    (installOnSession : Option SystemInfo → Except Error Unit)
    (sysInfo : Option SystemInfo) : Run (List ProbeEffect × Option SystemInfo) :=
  match sysInfo with
  | some held => .ret ([], some held)
  | none =>
    match newSystemInfo with
    | .panic => .panic
    | .ret built =>
      match installOnSession built.2 with
      | .error _ =>
        .ret ([.beginTracing, .newSystemInfo, .installOnSession built.2, .logError,
          .endTracing], none)
      | .ok _ => .ret ([.beginTracing, .newSystemInfo, .installOnSession built.2], built.2)

/-- The function `Stop`, on the value of the variable `_sysInfo`. -/
def Stop (sysInfo : Option SystemInfo) : List ProbeEffect × Option SystemInfo :=
  match sysInfo with
  | none => ([], none)
  | some held => ([.endTracing, .unInstallObject held], none)

/-! ## The probe and the provisioner, in the words of the specification -/

/-- The version step: the version of the distribution file when that
succeeds, otherwise the result of the LSB release file. -/
def versionStep (deepin lsb : Except Error (List Char)) : Except Error (List Char) :=
  match deepin with
  | .ok version => .ok version
  | .error _ => lsb

/-- The event is an action on the host, not a log line. -/
def isAction (e : Event) : Bool :=
  match e with
  | .warning => false
  | .debug => false
  | _ => true

/-- The actions among the events, in order. -/
def actions (events : List Event) : List Event := events.filter isAction

/-- The attempt to copy one skeleton into `home`, on a host in state `s`: the
skeleton is looked up and, when it is found, copied. -/
def copyAttempt {σ : Type} (host : Host σ) (s : σ) (config home : List Char) : List Event :=
  match findDatasPath (host.isFileExist s) config with
  | .error _ => [.lookup config]
  | .ok data => [.lookup config, .copyDir data home]

/-- The state of the host after the attempt to copy one skeleton. -/
def stateAfterAttempt {σ : Type} (host : Host σ) (s : σ) (config home : List Char) : σ :=
  match findDatasPath (host.isFileExist s) config with
  | .error _ => s
  | .ok data => (host.copyDir s data home).2

/-- A host on which `alice` resolves and every lookup, copy and `chown`
fails. -/
def failingHost : Host Unit where
  getUidFromUserPath := fun uPath => uPath.drop 32
  getUserInfoByUid := fun _ uid =>
    if uid = "1001".toList then .ok { Name := "alice".toList, Home := "/home/alice".toList }
    else .error (.external "no such user")
  openFile := fun _ _ => .error .ioError
  isFileExist := fun _ _ => false
  copyDir := fun s _ _ => (.error (.external "copy failed"), s)
  chown := fun s _ => (("chown: failed".toList, true), s)

/-- A host like `aliceHost` on which both copies fail. -/
def copyFailHost : Host Unit where
  getUidFromUserPath := fun uPath => uPath.drop 32
  getUserInfoByUid := fun _ uid =>
    if uid = "1001".toList then .ok { Name := "alice".toList, Home := "/home/alice".toList }
    else .error (.external "no such user")
  openFile := fun _ name =>
    if name = defaultLocaleFile then .ok "LANG=fr_FR.UTF-8".toList else .error .ioError
  isFileExist := fun _ name => shareOnly name
  copyDir := fun s _ _ => (.error (.external "copy failed"), s)
  chown := fun s _ => (([], false), s)

/-- A CPU info file with four logical processors. -/
def cpuinfoFour : List Char :=
  ("processor : 0\nmodel name : Intel Xeon\nprocessor : 1\nmodel name : Intel Xeon\n" ++
    "processor : 2\nmodel name : Intel Xeon\nprocessor : 3\nmodel name : Intel Xeon\n").toList

/-- The instance of the scenarios Probe-happy and Probe-version-fallback. -/
def probeHappy : SystemInfo :=
  { Version := "20.3".toList, Processor := "Intel Xeon x 4".toList, DiskCap := 500,
    MemoryCap := 16777216000, SystemType := 64 }

/-- The line contains `model name`. -/
def isModelLine (line : List Char) : Bool := stringsContains line "model name".toList

/-- Splitting the line on `:` yields exactly two parts. -/
def splitsInTwo (line : List Char) : Bool := decide ((stringsSplit line [':']).length = 2)

/-- The lines of the file that contain `model name`. -/
def modelLines (contents : List Char) : List (List Char) :=
  (linesOf contents).filter isModelLine

/-- The `model name` lines that are counted: those before the first one that
does not split into exactly two parts on `:`. -/
def countedLines (contents : List Char) : List (List Char) :=
  (modelLines contents).takeWhile splitsInTwo

/-- The values (the text after the `:`) of the counted lines. -/
def modelValues (contents : List Char) : List (List Char) :=
  (countedLines contents).map fun line => rightHandSide line [':']

/-- The base description: the first value that is not empty among the values
of the counted lines, the empty string when there is none. -/
def baseValue (contents : List Char) : List Char :=
  ((modelValues contents).find? fun v => decide (v ≠ [])).getD []

/-- The number of counted lines. -/
def processorCount (contents : List Char) : Nat := (countedLines contents).length

/-! # Theorems

## The disk aggregation -/

theorem inDriList_eq (path : String) (l : List String) :
    inDriList path l = decide (path ∈ l) := by
  induction l with
  | nil => simp [inDriList]
  | cons d ds ih =>
    by_cases h : d = path
    · simp [inDriList, h]
    · have h' : ¬ path = d := fun e => h e.symm
      simp [inDriList, h, h', ih]

/-- What one object adds to the recorded list. -/
theorem recordDrives_cons_typed (k : String) (obj : Object) (rest : Managers)
    (acc : List String) (h : blockTyped obj = true) :
    recordDrives ((k, obj) :: rest) acc =
      recordDrives rest (match driveRef obj with
        | some p => if p ∈ acc then acc else acc ++ [p]
        | none => acc) := by
  unfold blockTyped exposesBlock at h
  unfold driveRef exposesBlock
  rw [recordDrives]
  cases hb : List.lookup blockIface obj with
  | none => simp
  | some b =>
    simp only [hb, Option.isSome_some, Bool.not_true, Bool.false_or] at h
    cases hd : index2 obj blockIface "Drive" with
    | none => simp [hd] at h
    | some v =>
      cases v with
      | objectPath p =>
        by_cases hp : p = "/"
        · simp [hp]
        · by_cases hm : p ∈ acc
          · simp [hp, inDriList_eq, hm]
          · simp [hp, inDriList_eq, hm]
      | bool b => simp [hd] at h
      | uint64 n => simp [hd] at h
      | other => simp [hd] at h

theorem recordDrives_cons_untyped (k : String) (obj : Object) (rest : Managers)
    (acc : List String) (h : blockTyped obj = false) :
    recordDrives ((k, obj) :: rest) acc = .panic := by
  unfold blockTyped exposesBlock at h
  rw [recordDrives]
  cases hb : List.lookup blockIface obj with
  | none => simp [hb] at h
  | some b =>
    simp only [hb, Option.isSome_some, Bool.not_true, Bool.false_or] at h
    cases hd : index2 obj blockIface "Drive" with
    | none => simp
    | some v =>
      cases v with
      | objectPath p => simp [hd] at h
      | bool b => simp
      | uint64 n => simp
      | other => simp

theorem recordDrives_typed (ms : Managers) :
    ∀ acc : List String, (∀ e ∈ ms, blockTyped e.2 = true) →
      recordDrives ms acc = .ret (recorded ms acc) := by
  induction ms with
  | nil => intro acc _; simp [recordDrives, recorded]
  | cons e rest ih =>
    intro acc h
    obtain ⟨k, obj⟩ := e
    have h1 : blockTyped obj = true := h (k, obj) (List.mem_cons_self _ _)
    have h2 : ∀ e ∈ rest, blockTyped e.2 = true := fun e he => h e (List.mem_cons_of_mem _ he)
    rw [recordDrives_cons_typed k obj rest acc h1]
    have := ih (addDrive acc obj) h2
    simpa [recorded, addDrive] using this

theorem recordDrives_untyped (ms : Managers) :
    ∀ acc : List String, (∃ e ∈ ms, blockTyped e.2 = false) →
      recordDrives ms acc = .panic := by
  induction ms with
  | nil => intro acc h; simp at h
  | cons e rest ih =>
    intro acc h
    obtain ⟨k, obj⟩ := e
    by_cases h1 : blockTyped obj = true
    · rw [recordDrives_cons_typed k obj rest acc h1]
      apply ih
      obtain ⟨e, he, hf⟩ := h
      rcases List.mem_cons.1 he with rfl | he
      · simp [h1] at hf
      · exact ⟨e, he, hf⟩
    · exact recordDrives_cons_untyped k obj rest acc (by simpa using h1)

theorem mem_addDrive (acc : List String) (obj : Object) (p : String) :
    p ∈ addDrive acc obj ↔ p ∈ acc ∨ driveRef obj = some p := by
  unfold addDrive
  cases h : driveRef obj with
  | none => simp
  | some q =>
    by_cases hq : q ∈ acc
    · simp only [hq, if_true, Option.some.injEq]
      constructor
      · exact Or.inl
      · rintro (h | rfl)
        · exact h
        · exact hq
    · simp only [hq, if_false, List.mem_append, List.mem_singleton, Option.some.injEq]
      constructor
      · rintro (h | rfl)
        · exact Or.inl h
        · exact Or.inr rfl
      · rintro (h | rfl)
        · exact Or.inl h
        · exact Or.inr rfl

theorem nodup_addDrive (acc : List String) (obj : Object) (h : acc.Nodup) :
    (addDrive acc obj).Nodup := by
  unfold addDrive
  cases hd : driveRef obj with
  | none => simpa using h
  | some q =>
    by_cases hq : q ∈ acc
    · simpa [hq] using h
    · simp only [hq, if_false]
      exact List.Nodup.append h (List.nodup_singleton q) (by simpa using hq)

theorem mem_recorded (ms : Managers) :
    ∀ (acc : List String) (p : String),
      p ∈ recorded ms acc ↔ p ∈ acc ∨ p ∈ driveRefs ms := by
  induction ms with
  | nil => intro acc p; simp [recorded, driveRefs]
  | cons e rest ih =>
    intro acc p
    have := ih (addDrive acc e.2) p
    simp only [recorded, List.foldl_cons] at this ⊢
    rw [this, mem_addDrive]
    simp only [driveRefs, List.mem_filterMap, List.mem_cons]
    constructor
    · rintro ((h | h) | ⟨a, ha, h⟩)
      · exact Or.inl h
      · exact Or.inr ⟨e, Or.inl rfl, h⟩
      · exact Or.inr ⟨a, Or.inr ha, h⟩
    · rintro (h | ⟨a, rfl | ha, h⟩)
      · exact Or.inl (Or.inl h)
      · exact Or.inl (Or.inr h)
      · exact Or.inr ⟨a, ha, h⟩

theorem nodup_recorded (ms : Managers) :
    ∀ acc : List String, acc.Nodup → (recorded ms acc).Nodup := by
  induction ms with
  | nil => intro acc h; simpa [recorded] using h
  | cons e rest ih =>
    intro acc h
    have := ih (addDrive acc e.2) (nodup_addDrive acc e.2 h)
    simpa [recorded] using this

theorem sumDrives_cons (ms : Managers) (p : String) (rest : List String) (c : Nat) :
    sumDrives ms (p :: rest) c =
      if driveOk ms p = true then
        sumDrives ms rest (if isFixed ms p = true then (c + sizeOf ms p) % 2 ^ 64 else c)
      else .panic := by
  rw [sumDrives]
  unfold driveOk isFixed sizeOf
  cases hl : List.lookup p ms with
  | none => simp [index3, hl]
  | some obj =>
    cases hr : index3 ms p driveIface "Removable" with
    | none => simp
    | some v =>
      cases v with
      | bool b =>
        cases b with
        | true => simp
        | false =>
          cases hs : index3 ms p driveIface "Size" with
          | none => simp
          | some w => cases w <;> simp
      | objectPath q => simp
      | uint64 n => simp
      | other => simp

theorem sumDrives_ok (ms : Managers) :
    ∀ (l : List String) (c : Nat), c < 2 ^ 64 → (∀ p ∈ l, driveOk ms p = true) →
      sumDrives ms l c = .ret ((c + (l.map (contribution ms)).sum) % 2 ^ 64) := by
  intro l
  induction l with
  | nil =>
    intro c hc _
    rw [sumDrives, List.map_nil, List.sum_nil, Nat.add_zero, Nat.mod_eq_of_lt hc]

  | cons p rest ih =>
    intro c hc h
    have h1 : driveOk ms p = true := h p (List.mem_cons_self _ _)
    have h2 : ∀ q ∈ rest, driveOk ms q = true := fun q hq => h q (List.mem_cons_of_mem _ hq)
    rw [sumDrives_cons, if_pos h1]
    by_cases hf : isFixed ms p = true
    · rw [if_pos hf, ih _ (Nat.mod_lt _ (by norm_num)) h2]
      simp only [List.map_cons, List.sum_cons, contribution, hf, if_true]
      congr 1
      rw [Nat.add_mod, Nat.mod_mod, ← Nat.add_mod, Nat.add_assoc]
    · rw [if_neg hf, ih _ hc h2]
      simp [contribution, hf]

theorem sumDrives_panic (ms : Managers) :
    ∀ (l : List String) (c : Nat), (∃ p ∈ l, driveOk ms p = false) →
      sumDrives ms l c = .panic := by
  intro l
  induction l with
  | nil => intro c h; simp at h
  | cons p rest ih =>
    intro c h
    rw [sumDrives_cons]
    by_cases h1 : driveOk ms p = true
    · rw [if_pos h1]
      apply ih
      obtain ⟨q, hq, hf⟩ := h
      rcases List.mem_cons.1 hq with rfl | hq
      · simp [h1] at hf
      · exact ⟨q, hq, hf⟩
    · rw [if_neg h1]

theorem sum_contribution (ms : Managers) (l : List String) (hl : l.Nodup)
    (hm : ∀ p, p ∈ l ↔ p ∈ driveRefs ms) :
    (l.map (contribution ms)).sum = specDiskCap ms := by
  have hset : l.toFinset = (driveRefs ms).toFinset := by
    ext p; simp [hm]
  unfold specDiskCap
  rw [Finset.sum_filter, ← hset, List.sum_toFinset _ hl]
  rfl

/-- The whole of `getDiskCap` on a snapshot: the wrapped sum of the
specification when the aggregation completes, a panic otherwise. -/
theorem getDiskCap_eq (ms : Managers) :
    getDiskCap (.ok ms) =
      if Completes ms then .ret (.ok (specDiskCap ms % 2 ^ 64)) else .panic := by
  show ((recordDrives ms []).bind fun driList =>
      (sumDrives ms driList 0).bind fun diskCap => Run.ret (Except.ok diskCap)) = _
  by_cases h1 : ∀ e ∈ ms, blockTyped e.2 = true
  · rw [recordDrives_typed ms [] h1]
    simp only [Run.bind]
    have hm : ∀ p, p ∈ recorded ms [] ↔ p ∈ driveRefs ms := by
      intro p; rw [mem_recorded]; simp
    by_cases h2 : ∀ p ∈ driveRefs ms, driveOk ms p = true
    · have hc : Completes ms := ⟨h1, h2⟩
      rw [if_pos hc, sumDrives_ok ms _ 0 (by norm_num) (fun p hp => h2 p ((hm p).1 hp))]
      simp only [Run.bind, Nat.zero_add]
      rw [sum_contribution ms _ (nodup_recorded ms [] List.nodup_nil) hm]
    · have hc : ¬ Completes ms := fun hc => h2 hc.2
      rw [if_neg hc]
      push_neg at h2
      obtain ⟨p, hp, hf⟩ := h2
      rw [sumDrives_panic ms _ 0 ⟨p, (hm p).2 hp, by simpa using hf⟩]
  · have hc : ¬ Completes ms := fun hc => h1 hc.1
    rw [if_neg hc]
    push_neg at h1
    obtain ⟨e, he, hf⟩ := h1
    rw [recordDrives_untyped ms [] ⟨e, he, by simpa using hf⟩]
    rfl

theorem lookup_eq_some_iff_mem {β : Type} (l : List (String × β))
    (hl : (l.map Prod.fst).Nodup) (k : String) (v : β) :
    l.lookup k = some v ↔ (k, v) ∈ l := by
  induction l with
  | nil => simp
  | cons e rest ih =>
    obtain ⟨k', v'⟩ := e
    simp only [List.map_cons, List.nodup_cons] at hl
    by_cases hk : k = k'
    · subst hk
      simp only [List.lookup, beq_self_eq_true, Option.some.injEq, List.mem_cons, Prod.mk.injEq,
        true_and]
      constructor
      · intro h; exact Or.inl h.symm
      · rintro (h | h)
        · exact h.symm
        · exact absurd (List.mem_map_of_mem Prod.fst h) hl.1
    · have hb : (k == k') = false := by simpa using hk
      simp only [List.lookup, hb, List.mem_cons, Prod.mk.injEq, hk, false_and, false_or]
      exact ih hl.2

/-- Two snapshots with the same typing of their block devices, the same set
of referenced drives and the same objects at those drives give the same
outcome. -/
theorem getDiskCap_congr (ms ms' : Managers)
    (htyped : (∀ e ∈ ms', blockTyped e.2 = true) ↔ (∀ e ∈ ms, blockTyped e.2 = true))
    (hrefs : ∀ p, p ∈ driveRefs ms' ↔ p ∈ driveRefs ms)
    (hlook : ∀ p ∈ driveRefs ms, ms'.lookup p = ms.lookup p) :
    getDiskCap (.ok ms') = getDiskCap (.ok ms) := by
  have hok : ∀ p ∈ driveRefs ms, driveOk ms' p = driveOk ms p := by
    intro p hp; simp only [driveOk, index3, hlook p hp]
  have hfix : ∀ p ∈ driveRefs ms, isFixed ms' p = isFixed ms p := by
    intro p hp; simp only [isFixed, index3, hlook p hp]
  have hsize : ∀ p ∈ driveRefs ms, sizeOf ms' p = sizeOf ms p := by
    intro p hp; simp only [sizeOf, index3, hlook p hp]
  have hcomp : Completes ms' ↔ Completes ms := by
    unfold Completes
    rw [htyped]
    constructor
    · rintro ⟨h1, h2⟩
      exact ⟨h1, fun p hp => by rw [← hok p hp]; exact h2 p ((hrefs p).2 hp)⟩
    · rintro ⟨h1, h2⟩
      exact ⟨h1, fun p hp => by rw [hok p ((hrefs p).1 hp)]; exact h2 p ((hrefs p).1 hp)⟩
  have hset : (driveRefs ms').toFinset = (driveRefs ms).toFinset := by
    ext p; simp [hrefs]
  have hspec : specDiskCap ms' = specDiskCap ms := by
    unfold specDiskCap
    rw [hset]
    apply Finset.sum_congr
    · apply Finset.filter_congr
      intro p hp
      rw [hfix p (List.mem_toFinset.1 hp)]
    · intro p hp
      exact hsize p (List.mem_toFinset.1 (Finset.mem_filter.1 hp).1)
  rw [getDiskCap_eq, getDiskCap_eq, hspec]
  by_cases hc : Completes ms
  · rw [if_pos hc, if_pos (hcomp.2 hc)]
  · rw [if_neg hc, if_neg (fun h => hc (hcomp.1 h))]

theorem blockTyped_of_driveRef (obj : Object) (p : String) (h : driveRef obj = some p) :
    blockTyped obj = true := by
  unfold driveRef at h
  unfold blockTyped
  by_cases hb : exposesBlock obj = true
  · rw [if_pos hb] at h
    cases hd : index2 obj blockIface "Drive" with
    | none => simp [hd] at h
    | some v => cases v <;> simp_all
  · simp [hb]

/-- C1 (counterexample): two fixed drives of `2 ^ 63` bytes each are both
referenced by a block device, the aggregation completes, and the sum of their
sizes is `2 ^ 64`, but `getDiskCap` returns 0. -/
theorem getDiskCap_sum_wraps :
    Completes twoHugeDrives ∧ specDiskCap twoHugeDrives = 2 ^ 64 ∧
      getDiskCap (.ok twoHugeDrives) = .ret (.ok 0) := by
  refine ⟨by decide, by decide, by rfl⟩

/-- C1 (amended): on every snapshot on which the aggregation completes,
`getDiskCap` returns, modulo `2 ^ 64`, the sum of `Size` over the set of drive
paths referenced by a `Block.Drive` property other than `/`, restricted to
the drives with `Removable == false`; it is the sum itself when that is below
`2 ^ 64`. -/
theorem getDiskCap_sum_of_fixed_drives (ms : Managers) (h : Completes ms) :
    getDiskCap (.ok ms) = .ret (.ok (specDiskCap ms % 2 ^ 64)) ∧
      (specDiskCap ms < 2 ^ 64 → getDiskCap (.ok ms) = .ret (.ok (specDiskCap ms))) := by
  have h1 : getDiskCap (.ok ms) = .ret (.ok (specDiskCap ms % 2 ^ 64)) := by
    rw [getDiskCap_eq, if_pos h]
  exact ⟨h1, fun hlt => by rw [h1, Nat.mod_eq_of_lt hlt]⟩

/-- C1 (witness): the scenario Probe-disk-dedup gives 500. -/
theorem getDiskCap_sum_of_fixed_drives_witness :
    Completes probeDedup ∧ specDiskCap probeDedup = 500 ∧
      getDiskCap (.ok probeDedup) = .ret (.ok 500) :=
  ⟨by decide, by decide,
    ((getDiskCap_sum_of_fixed_drives probeDedup (by decide)).2 (by decide)).trans (by decide)⟩

theorem nodup_of_recordDrives (ms : Managers) (l : List String)
    (h : recordDrives ms [] = .ret l) : l.Nodup := by
  by_cases ht : ∀ e ∈ ms, blockTyped e.2 = true
  · rw [recordDrives_typed ms [] ht] at h
    cases h
    exact nodup_recorded ms [] List.nodup_nil
  · push_neg at ht
    obtain ⟨e, he, hf⟩ := ht
    rw [recordDrives_untyped ms [] ⟨e, he, by simpa using hf⟩] at h
    cases h

/-- C2 (counterexample): the drive `/d/X` is referenced by the block device
`/b/0`, and the block device `/b/2` refers to the path `/b/1`, at which the
snapshot has no object; `getDiskCap` returns 500.  Adding a further block
device on `/d/X` at the path `/b/1` changes the outcome: a panic when the
added object exposes `Block` only, and 507 when it also exposes a fixed
`Drive` interface of 7 bytes. -/
theorem getDiskCap_added_block_at_drive_path :
    "/d/X" ∈ driveRefs danglingRef ∧
      driveRef blockAtRef.2 = some "/d/X" ∧
      driveRef blockDriveAtRef.2 = some "/d/X" ∧
      getDiskCap (.ok danglingRef) = .ret (.ok 500) ∧
      getDiskCap (.ok (danglingRef ++ [blockAtRef])) = .panic ∧
      getDiskCap (.ok (danglingRef ++ [blockDriveAtRef])) = .ret (.ok 507) := by
  refine ⟨by decide, by decide, by decide, by decide, by decide, by decide⟩

/-- C2 (amended): let `p` be a drive path already referenced by a block
device of the snapshot `ms`, and let `ms'` enumerate, in any order, the
objects of `ms` together with further objects `extra` whose `Block.Drive` is
`p`, at new paths none of which is referenced as a drive by a block device of
`ms`.  Then `getDiskCap` gives on `ms'` what it gives on `ms`, and the drive
list it records never holds a path twice. -/
theorem getDiskCap_more_blocks_same_drive (ms extra ms' : Managers) (p : String)
    (hp : p ∈ driveRefs ms)
    (hextra : ∀ e ∈ extra, driveRef e.2 = some p)
    (hperm : ms'.Perm (ms ++ extra))
    (hkeys : (ms'.map Prod.fst).Nodup)
    (hfresh : ∀ e ∈ extra, e.1 ∉ driveRefs ms) :
    getDiskCap (.ok ms') = getDiskCap (.ok ms) ∧
      ∀ l, recordDrives ms' [] = .ret l → l.Nodup := by
  refine ⟨?_, fun l hl => nodup_of_recordDrives ms' l hl⟩
  have hmem : ∀ e, e ∈ ms' ↔ e ∈ ms ∨ e ∈ extra := by
    intro e; rw [hperm.mem_iff, List.mem_append]
  have hkeys2 : ((ms ++ extra).map Prod.fst).Nodup := (hperm.map Prod.fst).nodup_iff.1 hkeys
  have hkeys3 : (ms.map Prod.fst).Nodup := by
    rw [List.map_append] at hkeys2
    exact (List.nodup_append.1 hkeys2).1
  apply getDiskCap_congr
  · constructor
    · intro h e he; exact h e ((hmem e).2 (Or.inl he))
    · intro h e he
      rcases (hmem e).1 he with he | he
      · exact h e he
      · exact blockTyped_of_driveRef e.2 p (hextra e he)
  · intro q
    simp only [driveRefs, List.mem_filterMap]
    constructor
    · rintro ⟨e, he, hq⟩
      rcases (hmem e).1 he with he | he
      · exact ⟨e, he, hq⟩
      · have : q = p := by
          have := hextra e he
          rw [hq] at this
          exact Option.some.inj this
        subst this
        simpa [driveRefs, List.mem_filterMap] using hp
    · rintro ⟨e, he, hq⟩
      exact ⟨e, (hmem e).2 (Or.inl he), hq⟩
  · intro q hq
    apply Option.ext
    intro v
    simp only [Option.mem_def]
    rw [lookup_eq_some_iff_mem ms' hkeys, lookup_eq_some_iff_mem ms hkeys3, hmem]
    constructor
    · rintro (h | h)
      · exact h
      · exact absurd hq (hfresh (q, v) h)
    · exact Or.inl

/-- C2 (witness): one block device on a fixed drive of 500 bytes, then nine
more block devices on that drive, enumerated first: ten references, and the
result is still 500. -/
theorem getDiskCap_more_blocks_same_drive_witness :
    getDiskCap (.ok (nineBlocks ++ oneDrive)) = .ret (.ok 500) ∧
      recordDrives (nineBlocks ++ oneDrive) [] = .ret ["/d/X"] :=
  ⟨((getDiskCap_more_blocks_same_drive oneDrive nineBlocks (nineBlocks ++ oneDrive) "/d/X"
      (by decide) (by decide) List.perm_append_comm (by decide) (by decide)).1).trans
      (by decide),
    by decide⟩

/-- C3 (the code at the failing input): a block device refers to the drive
path `/d/X` and the object at `/d/X` is in the snapshot but exposes no `Drive`
interface.  `getDiskCap` panics, whereas on the snapshot without the block
devices referring to `/d/X` it returns 0, as it does when the object at
`/d/X` is absent from the snapshot. -/
theorem getDiskCap_driveless_object_panics :
    index2 [("org.freedesktop.UDisks2.Filesystem", [])] driveIface "Removable" = none ∧
      getDiskCap (.ok drivelessObject) = .panic ∧
      getDiskCap (.ok (withoutBlocksOf "/d/X" drivelessObject)) = .ret (.ok 0) ∧
      getDiskCap (.ok (withoutObject "/d/X" drivelessObject)) = .ret (.ok 0) := by
  refine ⟨by decide, by decide, by decide, by decide⟩

/-- C4 (counterexample): the drive `/d/X` is referenced by a block device and
its `Drive` interface has no `Size` property, yet `getDiskCap` returns a sum
(the drive is removable, so its size is never read) and `NewSystemInfo`
yields an instance. -/
theorem getDiskCap_removable_without_size :
    "/d/X" ∈ driveRefs removableNoSize ∧
      index3 removableNoSize "/d/X" driveIface "Size" = none ∧
      getDiskCap (.ok removableNoSize) = .ret (.ok 0) ∧
      NewSystemInfo (.ok ['1', '5']) (.error .fileNotExist) (.ok ['c', 'p', 'u']) (.ok 1024)
          (.ok 64) (getDiskCap (.ok removableNoSize)) =
        .ret ([], some
          { Version := ['1', '5'], Processor := ['c', 'p', 'u'], DiskCap := 0,
            MemoryCap := 1024, SystemType := 64 }) := by
  refine ⟨by decide, by decide, by decide, by decide⟩

theorem newSystemInfo_of_panic (deepin lsb cpu : Except Error (List Char))
    (mem : Except Error Nat) (sysType : Except Error Int) :
    NewSystemInfo deepin lsb cpu mem sysType .panic = .panic ∨
      ∃ logs, NewSystemInfo deepin lsb cpu mem sysType .panic = .ret (logs, none) := by
  unfold NewSystemInfo gatherRest
  rcases deepin with e | v
  · rcases lsb with e' | v'
    · exact Or.inr ⟨_, rfl⟩
    · rcases cpu with e1 | p
      · exact Or.inr ⟨_, rfl⟩
      · rcases mem with e2 | m
        · exact Or.inr ⟨_, rfl⟩
        · rcases sysType with e3 | t
          · exact Or.inr ⟨_, rfl⟩
          · exact Or.inl rfl
  · rcases cpu with e1 | p
    · exact Or.inr ⟨_, rfl⟩
    · rcases mem with e2 | m
      · exact Or.inr ⟨_, rfl⟩
      · rcases sysType with e3 | t
        · exact Or.inr ⟨_, rfl⟩
        · exact Or.inl rfl

theorem newSystemInfo_panics (deepin lsb : Except Error (List Char)) (v p : List Char)
    (m : Nat) (t : Int) (hv : versionStep deepin lsb = .ok v) :
    NewSystemInfo deepin lsb (.ok p) (.ok m) (.ok t) .panic = .panic := by
  unfold NewSystemInfo
  rcases deepin with e | v'
  · rcases lsb with e' | v''
    · cases hv
    · rfl
  · rfl

/-- C4 (amended): when a recorded drive (referenced by a block device, path
other than `/`) has a `Drive` interface that lacks the `Removable` property,
or one whose `Removable` is false and that lacks the `Size` property,
`getDiskCap` does not return a sum: the type assertion on the missing
property panics.  `NewSystemInfo` then yields no instance: it panics as well
once its four earlier steps have succeeded, and returns nil when one of them
fails. -/
theorem getDiskCap_missing_property_panics (ms : Managers) (p : String) (obj : Object)
    (props : Props) (href : p ∈ driveRefs ms) (hobj : ms.lookup p = some obj)
    (hdrive : obj.lookup driveIface = some props)
    (hbad : props.lookup "Removable" = none ∨
      (props.lookup "Removable" = some (.bool false) ∧ props.lookup "Size" = none)) :
    getDiskCap (.ok ms) = .panic ∧
      (∀ (deepin lsb cpu : Except Error (List Char)) (mem : Except Error Nat)
        (sysType : Except Error Int),
        NewSystemInfo deepin lsb cpu mem sysType (getDiskCap (.ok ms)) = .panic ∨
          ∃ logs, NewSystemInfo deepin lsb cpu mem sysType (getDiskCap (.ok ms)) =
            .ret (logs, none)) ∧
      (∀ (deepin lsb : Except Error (List Char)) (v pr : List Char) (m : Nat) (t : Int),
        versionStep deepin lsb = .ok v →
        NewSystemInfo deepin lsb (.ok pr) (.ok m) (.ok t) (getDiskCap (.ok ms)) = .panic) := by
  have hrm : index3 ms p driveIface "Removable" = props.lookup "Removable" := by
    simp only [index3, index2, hobj, hdrive]
  have hsz : index3 ms p driveIface "Size" = props.lookup "Size" := by
    simp only [index3, index2, hobj, hdrive]
  have hnot : driveOk ms p = false := by
    unfold driveOk
    rw [hobj, hrm, hsz]
    rcases hbad with hr | ⟨hr, hs⟩
    · simp [hr]
    · simp [hr, hs]
  have hpanic : getDiskCap (.ok ms) = .panic := by
    rw [getDiskCap_eq, if_neg]
    intro hc
    have := hc.2 p href
    rw [hnot] at this
    cases this
  refine ⟨hpanic, ?_, ?_⟩
  · intro deepin lsb cpu mem sysType
    rw [hpanic]
    exact newSystemInfo_of_panic deepin lsb cpu mem sysType
  · intro deepin lsb v pr m t hv
    rw [hpanic]
    exact newSystemInfo_panics deepin lsb v pr m t hv

/-- C4 (witness): a drive whose `Drive` interface has a `Size` but no
`Removable` property: `getDiskCap` panics, and so does `NewSystemInfo` when
the earlier steps succeed. -/
theorem getDiskCap_missing_property_panics_witness :
    getDiskCap (.ok noRemovable) = .panic ∧
      NewSystemInfo (.ok ['1', '5']) (.error .fileNotExist) (.ok ['c', 'p', 'u']) (.ok 1024)
        (.ok 64) (getDiskCap (.ok noRemovable)) = .panic :=
  ⟨(getDiskCap_missing_property_panics noRemovable "/d/X"
      [(driveIface, [("Size", .uint64 500)])] [("Size", .uint64 500)]
      (by decide) (by decide) (by decide) (Or.inl (by decide))).1,
    (getDiskCap_missing_property_panics noRemovable "/d/X"
      [(driveIface, [("Size", .uint64 500)])] [("Size", .uint64 500)]
      (by decide) (by decide) (by decide) (Or.inl (by decide))).2.2
      (.ok ['1', '5']) (.error .fileNotExist) ['1', '5'] ['c', 'p', 'u'] 1024 64 rfl⟩

/-! ## Splitting -/

theorem consHead_ne_nil (c : Char) (l : List (List Char)) : consHead c l ≠ [] := by
  cases l <;> simp [consHead]

theorem splitChar_ne_nil (c : Char) (s : List Char) : splitChar c s ≠ [] := by
  cases s with
  | nil => simp [splitChar]
  | cons x s =>
    by_cases h : x = c
    · simp [splitChar, h]
    · simp [splitChar, h, consHead_ne_nil]

theorem consHead_append (c : Char) (l l' : List (List Char)) (h : l ≠ []) :
    consHead c (l ++ l') = consHead c l ++ l' := by
  cases l with
  | nil => exact absurd rfl h
  | cons p ps => simp [consHead]

theorem stringsSplit_singleton (s : List Char) (c : Char) :
    stringsSplit s [c] = splitChar c s := by
  have hne : ([c] : List Char) ≠ [] := by simp
  unfold stringsSplit
  rw [if_neg hne]
  induction s with
  | nil => simp [splitFrom, splitChar]
  | cons x s ih =>
    by_cases h : x = c
    · subst h
      simp [splitFrom, splitChar, List.isPrefixOf, ih]
    · have h' : ¬ c = x := fun e => h e.symm
      simp [splitFrom, splitChar, List.isPrefixOf, ih, h, h']

theorem splitChar_append (c : Char) (a b : List Char) :
    splitChar c (a ++ c :: b) = splitChar c a ++ splitChar c b := by
  induction a with
  | nil => simp [splitChar]
  | cons x a ih =>
    by_cases h : x = c
    · simp [splitChar, h, ih]
    · simp [splitChar, h, ih, consHead_append _ _ _ (splitChar_ne_nil c a)]

theorem splitChar_of_not_mem (c : Char) (a : List Char) (h : c ∉ a) :
    splitChar c a = [a] := by
  induction a with
  | nil => simp [splitChar]
  | cons x a ih =>
    simp only [List.mem_cons, not_or] at h
    have hx : ¬ x = c := fun e => h.1 e.symm
    simp [splitChar, hx, ih h.2, consHead]

theorem splitChar_head (c : Char) (s : List Char) :
    (splitChar c s).getD 0 [] = s.takeWhile fun x => x ≠ c := by
  induction s with
  | nil => simp [splitChar]
  | cons x s ih =>
    by_cases h : x = c
    · simp [splitChar, h]
    · have hne := splitChar_ne_nil c s
      cases hs : splitChar c s with
      | nil => exact absurd hs hne
      | cons p ps =>
        rw [hs] at ih
        simp only [List.getD_cons_zero] at ih
        simp [splitChar, h, hs, consHead, ih]

theorem not_mem_of_mem_splitChar (c : Char) (s : List Char) :
    ∀ p ∈ splitChar c s, c ∉ p := by
  induction s with
  | nil => simp [splitChar]
  | cons x s ih =>
    intro p hp
    by_cases h : x = c
    · simp only [splitChar, h, if_true, List.mem_cons] at hp
      rcases hp with rfl | hp
      · simp
      · exact ih p hp
    · simp only [splitChar, h, if_false] at hp
      cases hs : splitChar c s with
      | nil => exact absurd hs (splitChar_ne_nil c s)
      | cons q qs =>
        rw [hs] at hp ih
        simp only [consHead, List.mem_cons] at hp
        rcases hp with rfl | hp
        · have := ih q (List.mem_cons_self _ _)
          simp only [List.mem_cons, not_or]
          exact ⟨fun e => h e.symm, this⟩
        · exact ih p (List.mem_cons_of_mem _ hp)

/-! ## The key-value parser -/

theorem valueLoop_eq_find (key delim : List Char) (lines : List (List Char)) :
    valueLoop key delim lines =
      match lines.find? fun line => stringsContains line key with
      | none => []
      | some line => rightHandSide line delim := by
  induction lines with
  | nil => simp [valueLoop]
  | cons line rest ih =>
    by_cases h : stringsContains line key = true
    · simp only [valueLoop, h, if_true, List.find?_cons_of_pos]
      unfold rightHandSide
      rcases hs : stringsSplit line delim with _ | ⟨a, _ | ⟨b, _ | ⟨c, t⟩⟩⟩ <;> simp
    · have h' : stringsContains line key = false := by simpa using h
      simp [valueLoop, h', ih]

theorem find_first_line (key : List Char) (before : List (List Char)) (line : List Char)
    (after : List (List Char))
    (hbefore : ∀ l ∈ before, stringsContains l key = false)
    (hline : stringsContains line key = true) :
    (before ++ line :: after).find? (fun l => stringsContains l key) = some line := by
  induction before with
  | nil => simp [hline]
  | cons b bs ih =>
    have hb : stringsContains b key = false := hbefore b (List.mem_cons_self _ _)
    simp only [List.cons_append]
    rw [List.find?_cons_of_neg _ (by simp [hb])]
    exact ih fun l hl => hbefore l (List.mem_cons_of_mem _ hl)

theorem getValueByKeyFromFile_ok (contents key delim : List Char) :
    getValueByKeyFromFile (.ok contents) key delim = .ok (specReadKey contents key delim) := by
  simp only [getValueByKeyFromFile, specReadKey, linesOf, stringsSplit_singleton,
    valueLoop_eq_find]

/-- C9: for every file content, key and delimiter, `getValueByKeyFromFile`
returns, with no error, the right-hand side of the first line containing
`key` as a substring (the second part when the split on `delim` yields
exactly two parts, the empty string otherwise), and the empty string when no
line contains `key`.  What follows the first such line is never consulted:
whatever comes after it, the result is the right-hand side of that line. -/
theorem getValueByKeyFromFile_first_line (key delim : List Char) :
    (∀ contents : List Char,
      getValueByKeyFromFile (.ok contents) key delim =
        .ok (specReadKey contents key delim)) ∧
    (∀ before line after : List Char,
      (∀ l ∈ linesOf before, stringsContains l key = false) →
      '\n' ∉ line → stringsContains line key = true →
      getValueByKeyFromFile (.ok (before ++ '\n' :: (line ++ '\n' :: after))) key delim =
        .ok (rightHandSide line delim)) := by
  refine ⟨fun contents => getValueByKeyFromFile_ok contents key delim, ?_⟩
  intro before line after hbefore hnl hline
  rw [getValueByKeyFromFile_ok]
  simp only [specReadKey, linesOf, splitChar_append, splitChar_of_not_mem _ _ hnl,
    List.singleton_append]
  have hfind := find_first_line key (splitChar '\n' before) line (splitChar '\n' after)
    hbefore hline
  rw [hfind]

/-- C9 (witness): `DISTRIB_RELEASE=20.3` with key `DISTRIB_RELEASE` and
delimiter `=` gives `20.3`, also when a second `DISTRIB_RELEASE` line follows. -/
theorem getValueByKeyFromFile_first_line_witness :
    getValueByKeyFromFile (.ok "DISTRIB_RELEASE=20.3".toList) "DISTRIB_RELEASE".toList ['='] =
        .ok "20.3".toList ∧
      getValueByKeyFromFile
          (.ok ("DISTRIB_ID=Deepin".toList ++
            '\n' :: ("DISTRIB_RELEASE=20.3".toList ++ '\n' :: "DISTRIB_RELEASE=15".toList)))
          "DISTRIB_RELEASE".toList ['='] =
        .ok "20.3".toList :=
  ⟨((getValueByKeyFromFile_first_line "DISTRIB_RELEASE".toList ['=']).1 _).trans (by decide),
    ((getValueByKeyFromFile_first_line "DISTRIB_RELEASE".toList ['=']).2
      "DISTRIB_ID=Deepin".toList "DISTRIB_RELEASE=20.3".toList "DISTRIB_RELEASE=15".toList
      (by decide) (by decide) (by decide)).trans (by decide)⟩

/-! ## Decimal numbers -/

theorem digitVal_of_digit (c : Char) (h : 48 ≤ c.toNat ∧ c.toNat ≤ 57) :
    digitVal c = some (c.toNat - 48) := by
  unfold digitVal; rw [if_pos h]

theorem le_foldl_decimal (s : List Char) :
    ∀ n : Nat, n ≤ s.foldl (fun n c => n * 10 + (c.toNat - 48)) n := by
  induction s with
  | nil => intro n; simp
  | cons c s ih =>
    intro n
    simp only [List.foldl_cons]
    exact le_trans (by omega) (ih _)

theorem parseUintLoop_of_digits (s : List Char) :
    ∀ n : Nat, (∀ c ∈ s, 48 ≤ c.toNat ∧ c.toNat ≤ 57) →
      s.foldl (fun n c => n * 10 + (c.toNat - 48)) n < 2 ^ 64 →
      parseUintLoop s n = .ok (s.foldl (fun n c => n * 10 + (c.toNat - 48)) n) := by
  induction s with
  | nil => intro n _ _; simp [parseUintLoop]
  | cons c s ih =>
    intro n hd hlt
    have hc := hd c (List.mem_cons_self _ _)
    simp only [List.foldl_cons] at hlt ⊢
    have hle := le_foldl_decimal s (n * 10 + (c.toNat - 48))
    have hnot : ¬ 2 ^ 64 ≤ n * 10 + (c.toNat - 48) := by omega
    rw [parseUintLoop, digitVal_of_digit c hc]
    simp only [hnot, if_false]
    exact ih _ (fun x hx => hd x (List.mem_cons_of_mem _ hx)) hlt

theorem strconvParseUint_of_decimal (digits : List Char) (hdec : IsDecimal digits)
    (hlt : decimalValue digits < 2 ^ 64) :
    strconvParseUint digits = .ok (decimalValue digits) := by
  unfold strconvParseUint
  rw [if_neg hdec.1]
  exact parseUintLoop_of_digits digits 0 hdec.2 hlt

theorem toNat_digitChar (d : Nat) (h : d < 10) : (Char.ofNat (48 + d)).toNat = 48 + d := by
  interval_cases d <;> rfl

theorem decimalValue_append (digits : List Char) (c : Char) :
    decimalValue (digits ++ [c]) = decimalValue digits * 10 + (c.toNat - 48) := by
  simp [decimalValue, List.foldl_append]

/-- Every number is the value of a string of decimal digits. -/
theorem decimalOf_spec (n : Nat) : IsDecimal (decimalOf n) ∧ decimalValue (decimalOf n) = n := by
  induction n using Nat.strong_induction_on with
  | _ n ih =>
    rw [decimalOf]
    by_cases h : n < 10
    · rw [dif_pos h]
      refine ⟨⟨by simp, ?_⟩, ?_⟩
      · intro c hc
        rw [List.mem_singleton] at hc
        rw [hc, toNat_digitChar n h]
        omega
      · simp [decimalValue, toNat_digitChar n h]
    · rw [dif_neg h]
      obtain ⟨⟨_, hd⟩, hv⟩ := ih (n / 10) (by omega)
      have hm : n % 10 < 10 := Nat.mod_lt _ (by norm_num)
      refine ⟨⟨by simp, ?_⟩, ?_⟩
      · intro c hc
        rcases List.mem_append.1 hc with hc | hc
        · exact hd c hc
        · rw [List.mem_singleton] at hc
          rw [hc, toNat_digitChar _ hm]
          omega
      · rw [decimalValue_append, hv, toNat_digitChar _ hm]
        omega

/-! ## White space -/

theorem isSpace_of_digit (c : Char) (h : 48 ≤ c.toNat ∧ c.toNat ≤ 57) : isSpace c = false := by
  unfold isSpace
  simp only [List.mem_cons, List.mem_singleton, List.not_mem_nil, or_false, Bool.or_eq_false_iff,
    decide_eq_false_iff_not, Bool.and_eq_false_iff]
  omega

theorem dropWhile_replicate_append (p : Char → Bool) (a : Char) (k : Nat) (l : List Char)
    (ha : p a = true) : (List.replicate k a ++ l).dropWhile p = l.dropWhile p := by
  induction k with
  | zero => simp
  | succ k ih => simp [List.replicate_succ, List.dropWhile_cons, ha, ih]

theorem memTotalLine_eq (k : Nat) (digits : List Char) :
    memTotalLine k digits =
      ['M', 'e', 'm', 'T', 'o', 't', 'a', 'l'] ++
        ':' :: (List.replicate k ' ' ++ digits ++ [' ', 'k', 'B']) := by
  simp [memTotalLine]

theorem stringsTrimSpace_value (k : Nat) (digits : List Char) (hdec : IsDecimal digits) :
    stringsTrimSpace (List.replicate k ' ' ++ digits ++ [' ', 'k', 'B']) =
      digits ++ [' ', 'k', 'B'] := by
  obtain ⟨hne, hd⟩ := hdec
  cases digits with
  | nil => exact absurd rfl hne
  | cons d ds =>
    have hsp : isSpace ' ' = true := by decide
    have hB : isSpace 'B' = false := by decide
    have h0 : isSpace d = false := isSpace_of_digit d (hd d (List.mem_cons_self _ _))
    unfold stringsTrimSpace
    rw [List.append_assoc, dropWhile_replicate_append isSpace ' ' k _ hsp]
    simp only [List.cons_append, List.dropWhile_cons, h0]
    simp [List.dropWhile_cons, hB]

theorem not_mem_digits (c : Char) (digits : List Char)
    (hd : ∀ x ∈ digits, 48 ≤ x.toNat ∧ x.toNat ≤ 57) (hc : ¬ (48 ≤ c.toNat ∧ c.toNat ≤ 57)) :
    c ∉ digits := fun h => hc (hd c h)

theorem rightHandSide_memTotalLine (k : Nat) (digits : List Char) (hdec : IsDecimal digits) :
    rightHandSide (memTotalLine k digits) [':'] =
      List.replicate k ' ' ++ digits ++ [' ', 'k', 'B'] := by
  have hcolon : ':' ∉ List.replicate k ' ' ++ digits ++ [' ', 'k', 'B'] := by
    simp only [List.mem_append, not_or]
    refine ⟨⟨?_, not_mem_digits ':' digits hdec.2 (by decide)⟩, by decide⟩
    intro h
    have := List.eq_of_mem_replicate h
    exact absurd this (by decide)
  unfold rightHandSide
  rw [stringsSplit_singleton, memTotalLine_eq, splitChar_append,
    splitChar_of_not_mem _ _ hcolon, splitChar_of_not_mem _ _ (by decide)]
  rfl

theorem stringsContains_memTotalLine (k : Nat) (digits : List Char) :
    stringsContains (memTotalLine k digits) "MemTotal".toList = true := by
  rw [memTotalLine_eq]
  simp [stringsContains, List.isPrefixOf]

theorem firstField_value (digits : List Char) (hdec : IsDecimal digits) :
    (stringsSplit (digits ++ [' ', 'k', 'B']) [' ']).getD 0 [] = digits := by
  have hsp : ' ' ∉ digits := not_mem_digits ' ' digits hdec.2 (by decide)
  have : digits ++ [' ', 'k', 'B'] = digits ++ ' ' :: ['k', 'B'] := rfl
  rw [stringsSplit_singleton, this, splitChar_append, splitChar_of_not_mem _ _ hsp]
  rfl

theorem getMemoryCapFromFile_eq (contents : List Char) (k : Nat) (digits : List Char)
    (hline : (linesOf contents).find? (fun l => stringsContains l "MemTotal".toList) =
      some (memTotalLine k digits))
    (hdec : IsDecimal digits) (hlt : decimalValue digits < 2 ^ 64) :
    getMemoryCapFromFile true (.ok contents) = .ok (decimalValue digits * 1024 % 2 ^ 64) := by
  have hval : getValueByKeyFromFile (.ok contents) "MemTotal".toList [':'] =
      .ok (List.replicate k ' ' ++ digits ++ [' ', 'k', 'B']) := by
    simp only [getValueByKeyFromFile, stringsSplit_singleton, valueLoop_eq_find]
    have := hline
    unfold linesOf at this
    rw [this]
    simp only [rightHandSide_memTotalLine k digits hdec]
  have hlen : (digits ++ [' ', 'k', 'B']).length ≠ 0 := by simp
  unfold getMemoryCapFromFile
  simp only [Bool.not_true, Bool.false_eq_true, if_false, hval,
    stringsTrimSpace_value k digits hdec, hlen, firstField_value digits hdec,
    strconvParseUint_of_decimal digits hdec hlt]

/-- C10 (counterexample): for `N = 2 ^ 54 = 18014398509481984`, a decimal
unsigned 64-bit integer, the content `MemTotal: 18014398509481984 kB` gives 0
and not `N × 1024 = 2 ^ 64`. -/
theorem getMemoryCapFromFile_wraps :
    IsDecimal "18014398509481984".toList ∧
      decimalValue "18014398509481984".toList = 2 ^ 54 ∧
      2 ^ 54 * 1024 = 2 ^ 64 ∧
      getMemoryCapFromFile true (.ok "MemTotal: 18014398509481984 kB".toList) = .ok 0 := by
  refine ⟨by decide, by decide, by decide, by decide⟩

/-- C10 (amended): when the first line containing `MemTotal` is
`MemTotal:<spaces>N kB`, with `N < 2 ^ 64` written as a string of decimal
digits (every number has one, `decimalOf_spec`), `getMemoryCapFromFile`
returns `N × 1024` modulo `2 ^ 64`; that is `N × 1024` exactly, with no
rounding, when `N < 2 ^ 54`. -/
theorem getMemoryCapFromFile_times_1024 (contents : List Char) (k : Nat) (digits : List Char)
    (N : Nat)
    (hline : (linesOf contents).find? (fun l => stringsContains l "MemTotal".toList) =
      some (memTotalLine k digits))
    (hdec : IsDecimal digits) (hval : decimalValue digits = N) (hlt : N < 2 ^ 64) :
    getMemoryCapFromFile true (.ok contents) = .ok (N * 1024 % 2 ^ 64) ∧
      (N < 2 ^ 54 → getMemoryCapFromFile true (.ok contents) = .ok (N * 1024)) := by
  subst hval
  have h := getMemoryCapFromFile_eq contents k digits hline hdec hlt
  refine ⟨h, fun hsmall => ?_⟩
  rw [h, Nat.mod_eq_of_lt]
  have : (2 : Nat) ^ 64 = 2 ^ 54 * 1024 := by norm_num
  omega

/-- C10 (witness): the line `MemTotal:  16384000 kB` gives 16777216000. -/
theorem getMemoryCapFromFile_times_1024_witness :
    getMemoryCapFromFile true (.ok "MemTotal:  16384000 kB".toList) = .ok 16777216000 :=
  ((getMemoryCapFromFile_times_1024 "MemTotal:  16384000 kB".toList 2 "16384000".toList
    16384000 (by decide) (by decide) (by decide) (by decide)).2 (by decide)).trans (by decide)

/-! ## The locale file -/

theorem localeLoop_eq_find (lines : List (List Char)) :
    localeLoop lines =
      match lines.find? startsWithLang with
      | none => []
      | some line => (line.drop 5).takeWhile fun c => c ≠ '\n' := by
  induction lines with
  | nil => simp [localeLoop]
  | cons line rest ih =>
    by_cases h : startsWithLang line = true
    · have h' : List.isPrefixOf ['L', 'A', 'N', 'G', '='] line = true := h
      simp [localeLoop, findStringSubmatch, h', List.find?_cons, h]
    · have h1 : startsWithLang line = false := by simpa using h
      have h' : List.isPrefixOf ['L', 'A', 'N', 'G', '='] line = false := h1
      simp [localeLoop, findStringSubmatch, h', List.find?_cons, h1, ih]

theorem find_scanTokens (pieces : List (List Char)) :
    (scanTokens pieces).find? startsWithLang =
      ((pieces.takeWhile fun l => decide (byteLen l < maxScanTokenSize)).map dropCR).find?
        startsWithLang := by
  induction pieces with
  | nil => simp [scanTokens]
  | cons piece rest ih =>
    cases rest with
    | nil =>
      by_cases he : piece = []
      · subst he
        have : startsWithLang (dropCR []) = false := by decide
        simp [scanTokens, List.takeWhile_cons, byteLen, maxScanTokenSize, List.find?_cons, this]
      · by_cases hs : byteLen piece < maxScanTokenSize
        · simp [scanTokens, he, hs, List.takeWhile_cons]
        · simp [scanTokens, he, hs, List.takeWhile_cons]
    | cons r rs =>
      by_cases hs : byteLen piece < maxScanTokenSize
      · rw [scanTokens]
        · simp only [hs, if_true, List.find?_cons]
          rw [ih]
          simp [List.takeWhile_cons, hs, List.find?_cons]
        · simp
      · rw [scanTokens]
        · simp [hs, List.takeWhile_cons]
        · simp

theorem not_mem_dropCR (c : Char) (l : List Char) (h : c ∉ l) : c ∉ dropCR l := by
  unfold dropCR
  split
  · exact fun hc => h ((List.dropLast_sublist l).subset hc)
  · exact h

theorem newline_not_mem_delivered (content : List Char) :
    ∀ l ∈ deliveredLines content, '\n' ∉ l := by
  intro l hl
  simp only [deliveredLines, List.mem_map] at hl
  obtain ⟨p, hp, rfl⟩ := hl
  apply not_mem_dropCR
  exact not_mem_of_mem_splitChar '\n' content p ((List.takeWhile_sublist _).subset hp)

/-- The whole of `getDefaultLocale` on a file that can be opened. -/
theorem getDefaultLocale_eq (content : List Char) :
    getDefaultLocale (.ok content) = .ok (localeOfLines (deliveredLines content)) := by
  simp only [getDefaultLocale, stringsSplit_singleton, splitChar_head, localeLoop_eq_find,
    scanLines, find_scanTokens]
  unfold localeOfLines deliveredLines linesOf
  cases hf : List.find? startsWithLang
      ((List.takeWhile (fun l => decide (byteLen l < maxScanTokenSize))
        (splitChar '\n' content)).map dropCR) with
  | none => simp
  | some line =>
    have hmem : line ∈ deliveredLines content := List.mem_of_find?_eq_some hf
    have hnl := newline_not_mem_delivered content line hmem
    have hdrop : '\n' ∉ line.drop 5 := fun h => hnl ((List.drop_sublist 5 line).subset h)
    have : (line.drop 5).takeWhile (fun c => decide (c ≠ '\n')) = line.drop 5 := by
      rw [List.takeWhile_eq_self_iff]
      intro x hx
      simp only [ne_eq, decide_not, Bool.not_eq_true', decide_eq_false_iff_not]
      rintro rfl
      exact hdrop hx
    simp only [this]

theorem deliveredLines_of_short (content : List Char)
    (h : ∀ l ∈ linesOf content, byteLen l < maxScanTokenSize) :
    deliveredLines content = textLines content := by
  unfold deliveredLines textLines
  congr 1
  rw [List.takeWhile_eq_self_iff]
  intro l hl
  simpa using h l hl

theorem byteLen_replicate_x (n : Nat) : byteLen (List.replicate n 'x') = n := by
  have h : Char.utf8Size 'x' = 1 := by decide
  simp [byteLen, List.map_replicate, List.sum_replicate, h]

theorem linesOf_longLineLocale :
    linesOf longLineLocale = [List.replicate 65536 'x', "LANG=fr_FR.UTF-8".toList] := by
  have h1 : '\n' ∉ List.replicate 65536 'x' := by
    intro h
    exact absurd (List.eq_of_mem_replicate h) (by decide)
  have h2 : '\n' ∉ "LANG=fr_FR.UTF-8".toList := by decide
  unfold linesOf longLineLocale
  rw [splitChar_append, splitChar_of_not_mem _ _ h1, splitChar_of_not_mem _ _ h2]
  rfl

theorem dropCR_replicate_x (n : Nat) : dropCR (List.replicate n 'x') = List.replicate n 'x' := by
  unfold dropCR
  rw [List.getLast?_replicate]
  by_cases h : n = 0
  · simp [h]
  · simp [h]

theorem startsWithLang_replicate_x (n : Nat) :
    startsWithLang (List.replicate n 'x') = false := by
  cases n with
  | zero => simp [startsWithLang, List.isPrefixOf]
  | succ n => simp [startsWithLang, List.replicate_succ, List.isPrefixOf]

theorem longLine_too_long : ¬ byteLen (List.replicate 65536 'x') < maxScanTokenSize := by
  rw [byteLen_replicate_x]; decide

theorem localeOfLines_first_too_long (first : List Char) (rest : List (List Char))
    (hlong : ¬ byteLen first < maxScanTokenSize) :
    localeOfLines
      (((first :: rest).takeWhile fun l => decide (byteLen l < maxScanTokenSize)).map dropCR) =
      [] := by
  simp [List.takeWhile_cons, hlong, localeOfLines]

theorem deliveredLines_longLineLocale :
    deliveredLines longLineLocale =
      ([List.replicate 65536 'x', "LANG=fr_FR.UTF-8".toList].takeWhile
        fun l => decide (byteLen l < maxScanTokenSize)).map dropCR := by
  unfold deliveredLines
  rw [linesOf_longLineLocale]

/-- C5 (counterexample): the first line of the file is 65536 letters `x`, the
second line is `LANG=fr_FR.UTF-8`, the first line matching `^LANG=(.*)`, with
`fr_FR` before the first `.` of its right-hand side; `getDefaultLocale`
returns the empty string, because the scanner stops at the first line. -/
theorem getDefaultLocale_stops_at_long_line :
    linesOf longLineLocale = [List.replicate 65536 'x', "LANG=fr_FR.UTF-8".toList] ∧
      startsWithLang (List.replicate 65536 'x') = false ∧
      localeOfLines (textLines longLineLocale) = "fr_FR".toList ∧
      getDefaultLocale (.ok longLineLocale) = .ok [] := by
  have hx : startsWithLang (List.replicate 65536 'x') = false :=
    startsWithLang_replicate_x 65536
  refine ⟨linesOf_longLineLocale, hx, ?_, ?_⟩
  · unfold textLines
    rw [linesOf_longLineLocale]
    simp only [List.map_cons, List.map_nil, dropCR_replicate_x, localeOfLines,
      List.find?_cons, hx]
    decide
  · rw [getDefaultLocale_eq, deliveredLines_longLineLocale,
      localeOfLines_first_too_long _ _ longLine_too_long]

/-- C5 (amended): for every readable locale file content, `getDefaultLocale`
returns, with no error, the text preceding the first `.` in the right-hand
side of the first line starting with `LANG=` among the lines before the first
line of 65536 bytes or more (lines end at `\n`, a `\r` before it left out),
and the empty string when none of these lines starts with `LANG=`; when every
line is shorter than 65536 bytes these are all the lines of the file.  An
error is returned only when the file cannot be opened. -/
theorem getDefaultLocale_first_LANG_line (content : List Char) :
    getDefaultLocale (.ok content) = .ok (localeOfLines (deliveredLines content)) ∧
      ((∀ l ∈ linesOf content, byteLen l < maxScanTokenSize) →
        getDefaultLocale (.ok content) = .ok (localeOfLines (textLines content))) ∧
      (∀ (file : Except Error (List Char)) (err : Error),
        getDefaultLocale file = .error err → file = .error err) := by
  refine ⟨getDefaultLocale_eq content, ?_, ?_⟩
  · intro h
    rw [getDefaultLocale_eq, deliveredLines_of_short content h]
  · intro file err h
    cases file with
    | error e => simpa [getDefaultLocale] using h
    | ok c => simp [getDefaultLocale] at h

/-- C5 (witness): a file with `LANG=fr_FR.UTF-8` gives `fr_FR`, also after a
line that contains `LANG=` without starting with it. -/
theorem getDefaultLocale_first_LANG_line_witness :
    getDefaultLocale (.ok "LANG=fr_FR.UTF-8".toList) = .ok "fr_FR".toList ∧
      getDefaultLocale (.ok "# LANG=C\nLANG=fr_FR.UTF-8\nLANG=de_DE\n".toList) =
        .ok "fr_FR".toList :=
  ⟨((getDefaultLocale_first_LANG_line "LANG=fr_FR.UTF-8".toList).2.1 (by decide)).trans
      (by decide),
    ((getDefaultLocale_first_LANG_line "# LANG=C\nLANG=fr_FR.UTF-8\nLANG=de_DE\n".toList).2.1
      (by decide)).trans (by decide)⟩

/-! ## Paths -/

theorem intercalate_cons_cons (a b : List Char) (l : List (List Char)) :
    ['/'].intercalate (a :: b :: l) = a ++ '/' :: ['/'].intercalate (b :: l) := by
  simp [List.intercalate]

theorem intercalate_splitChar (s : List Char) :
    ['/'].intercalate (splitChar '/' s) = s := by
  induction s with
  | nil => simp [splitChar, List.intercalate]
  | cons x s ih =>
    cases hs : splitChar '/' s with
    | nil => exact absurd hs (splitChar_ne_nil '/' s)
    | cons p ps =>
      rw [hs] at ih
      by_cases h : x = '/'
      · subst h
        simp only [splitChar, if_true, hs]
        rw [intercalate_cons_cons, ih]
        rfl
      · simp only [splitChar, h, if_false, hs, consHead]
        cases ps with
        | nil =>
          simp only [List.intercalate, List.intersperse_single, List.flatten_cons,
            List.flatten_nil, List.append_nil] at ih ⊢
          rw [ih]
        | cons q qs =>
          rw [intercalate_cons_cons] at ih ⊢
          rw [← ih]
          rfl

theorem pathJoin_two (base rel : List Char) (hbase : base ≠ []) :
    pathJoin [base, rel] = pathClean (base ++ '/' :: rel) := by
  simp [pathJoin, List.dropWhile_cons, hbase, List.intercalate]

theorem foldl_cleanStep_noDotDot (elems : List (List Char)) :
    ∀ stack : List (List Char), (∀ e ∈ elems, e ≠ ['.', '.']) →
      elems.foldl (cleanStep true) stack =
        (elems.filter fun e => decide (e ≠ [] ∧ e ≠ ['.'])).reverse ++ stack := by
  induction elems with
  | nil => intro stack _; simp
  | cons e rest ih =>
    intro stack h
    have he : e ≠ ['.', '.'] := h e (List.mem_cons_self _ _)
    have hrest : ∀ x ∈ rest, x ≠ ['.', '.'] := fun x hx => h x (List.mem_cons_of_mem _ hx)
    simp only [List.foldl_cons]
    by_cases hskip : e = [] ∨ e = ['.']
    · have hf : decide (e ≠ [] ∧ e ≠ ['.']) = false := by
        simp only [decide_eq_false_iff_not]; tauto
      rw [List.filter_cons_of_neg (by simp [hf])]
      simp only [cleanStep, hskip, if_true]
      exact ih stack hrest
    · have hf : decide (e ≠ [] ∧ e ≠ ['.']) = true := by
        simp only [decide_eq_true_eq]; tauto
      rw [List.filter_cons_of_pos (by simp [hf])]
      simp only [cleanStep, hskip, if_false, he]
      rw [ih _ hrest]
      simp

/-- The cleaned join of a probe prefix (given by its elements) and a relative
name with no `..` element. -/
theorem pathClean_join_noDotDot (base rel : List Char) (elems : List (List Char))
    (hroot : base.head? = some '/')
    (hbase : (splitChar '/' base).foldl (cleanStep true) [] = elems.reverse)
    (hrel : NoDotDot rel) :
    pathClean (base ++ '/' :: rel) =
      '/' :: ['/'].intercalate
        (elems ++ (splitChar '/' rel).filter fun e => decide (e ≠ [] ∧ e ≠ ['.'])) := by
  have hne : base ++ '/' :: rel ≠ [] := by simp
  have hhead : (base ++ '/' :: rel).head? = some '/' := by
    cases base with
    | nil => simp at hroot
    | cons b bs => simpa using hroot
  unfold pathClean
  simp only [hne, if_false, hhead, if_true, stringsSplit_singleton, splitChar_append,
    List.foldl_append, decide_True, hbase]
  rw [foldl_cleanStep_noDotDot _ _ hrel]
  simp

theorem intercalate_append_left (elems tail : List (List Char)) (h : elems ≠ []) :
    ∃ t, ['/'].intercalate (elems ++ tail) = ['/'].intercalate elems ++ t := by
  induction elems with
  | nil => exact absurd rfl h
  | cons a rest ih =>
    cases rest with
    | nil =>
      cases tail with
      | nil => exact ⟨[], by simp⟩
      | cons q qs =>
        refine ⟨'/' :: ['/'].intercalate (q :: qs), ?_⟩
        rw [List.singleton_append, intercalate_cons_cons]
        simp [List.intercalate]
    | cons b l =>
      obtain ⟨t, ht⟩ := ih (by simp)
      refine ⟨t, ?_⟩
      rw [List.cons_append, List.cons_append, intercalate_cons_cons, ← List.cons_append, ht,
        intercalate_cons_cons]
      simp

theorem intercalate_append_both (elems tail : List (List Char)) (h : elems ≠ [])
    (ht : tail ≠ []) :
    ['/'].intercalate (elems ++ tail) =
      ['/'].intercalate elems ++ '/' :: ['/'].intercalate tail := by
  induction elems with
  | nil => exact absurd rfl h
  | cons a rest ih =>
    cases rest with
    | nil =>
      cases tail with
      | nil => exact absurd rfl ht
      | cons q qs =>
        rw [List.singleton_append, intercalate_cons_cons]
        simp [List.intercalate]
    | cons b l =>
      rw [List.cons_append, List.cons_append, intercalate_cons_cons, ← List.cons_append,
        ih (by simp), intercalate_cons_cons]
      simp

theorem filter_plain (elems : List (List Char)) (h : ∀ e ∈ elems, IsPlainElem e) :
    elems.filter (fun e => decide (e ≠ [] ∧ e ≠ ['.'])) = elems := by
  rw [List.filter_eq_self]
  intro e he
  have := h e he
  simp only [decide_eq_true_eq]
  exact ⟨this.1, this.2.1⟩

/-- The join of a probe prefix with a relative name without `..` begins with
the prefix; with a plain relative name it is the prefix, a slash and the
name. -/
theorem pathJoin_prefix (base rel : List Char) (elems : List (List Char))
    (hroot : base.head? = some '/') (hne : elems ≠ [])
    (hbase : (splitChar '/' base).foldl (cleanStep true) [] = elems.reverse)
    (hback : '/' :: ['/'].intercalate elems = base) :
    (NoDotDot rel → base <+: pathJoin [base, rel]) ∧
      (IsPlainPath rel → pathJoin [base, rel] = base ++ '/' :: rel) := by
  have hb : base ≠ [] := by
    intro h; rw [h] at hroot; simp at hroot
  constructor
  · intro hrel
    rw [pathJoin_two base rel hb, pathClean_join_noDotDot base rel elems hroot hbase hrel]
    obtain ⟨t, ht⟩ := intercalate_append_left elems
      ((splitChar '/' rel).filter fun e => decide (e ≠ [] ∧ e ≠ ['.'])) hne
    rw [ht, ← List.cons_append, hback]
    exact List.prefix_append _ _
  · intro hrel
    have hnd : NoDotDot rel := fun e he => (hrel e he).2.2
    rw [pathJoin_two base rel hb, pathClean_join_noDotDot base rel elems hroot hbase hnd,
      filter_plain _ hrel, intercalate_append_both elems _ hne (splitChar_ne_nil '/' rel),
      intercalate_splitChar, ← List.cons_append, hback]

theorem pathJoin_local (rel : List Char) :
    (NoDotDot rel → "/usr/local/share".toList <+: pathJoin ["/usr/local/share".toList, rel]) ∧
      (IsPlainPath rel →
        pathJoin ["/usr/local/share".toList, rel] = "/usr/local/share".toList ++ '/' :: rel) :=
  pathJoin_prefix "/usr/local/share".toList rel ["usr".toList, "local".toList, "share".toList]
    (by decide) (by decide) (by decide) (by decide)

theorem pathJoin_share (rel : List Char) :
    (NoDotDot rel → "/usr/share".toList <+: pathJoin ["/usr/share".toList, rel]) ∧
      (IsPlainPath rel →
        pathJoin ["/usr/share".toList, rel] = "/usr/share".toList ++ '/' :: rel) :=
  pathJoin_prefix "/usr/share".toList rel ["usr".toList, "share".toList]
    (by decide) (by decide) (by decide) (by decide)

theorem findDatasPath_cases (isFileExist : List Char → Bool) (rel : List Char) :
    findDatasPath isFileExist rel =
      if isFileExist (pathJoin ["/usr/local/share".toList, rel]) = true then
        .ok (pathJoin ["/usr/local/share".toList, rel])
      else if isFileExist (pathJoin ["/usr/share".toList, rel]) = true then
        .ok (pathJoin ["/usr/share".toList, rel])
      else .error (.notFound (pathJoin ["/usr/share".toList, rel])) := rfl

/-- C6: `findDatasPath(rel)` returns the path under `/usr/local/share`
whenever that exists, also if the one under `/usr/share` exists; otherwise the
path under `/usr/share` when that exists; and the not-found error if and only
if neither exists.  The probed paths are `path.Join(prefix, rel)`, which for
a plain relative name is the prefix, a slash and the name. -/
theorem findDatasPath_probe_order (isFileExist : List Char → Bool) (rel : List Char) :
    (isFileExist (pathJoin ["/usr/local/share".toList, rel]) = true →
      findDatasPath isFileExist rel = .ok (pathJoin ["/usr/local/share".toList, rel])) ∧
    (isFileExist (pathJoin ["/usr/local/share".toList, rel]) = false →
      isFileExist (pathJoin ["/usr/share".toList, rel]) = true →
      findDatasPath isFileExist rel = .ok (pathJoin ["/usr/share".toList, rel])) ∧
    ((∃ err, findDatasPath isFileExist rel = .error err) ↔
      (isFileExist (pathJoin ["/usr/local/share".toList, rel]) = false ∧
        isFileExist (pathJoin ["/usr/share".toList, rel]) = false)) ∧
    (∀ err, findDatasPath isFileExist rel = .error err →
      err = .notFound (pathJoin ["/usr/share".toList, rel])) ∧
    (IsPlainPath rel →
      pathJoin ["/usr/local/share".toList, rel] = "/usr/local/share".toList ++ '/' :: rel ∧
        pathJoin ["/usr/share".toList, rel] = "/usr/share".toList ++ '/' :: rel) := by
  rw [findDatasPath_cases]
  refine ⟨?_, ?_, ?_, ?_, ?_⟩
  · intro h; rw [if_pos h]
  · intro h1 h2; rw [if_neg (by rw [h1]; exact Bool.false_ne_true), if_pos h2]
  · cases h1 : isFileExist (pathJoin ["/usr/local/share".toList, rel]) <;>
      cases h2 : isFileExist (pathJoin ["/usr/share".toList, rel]) <;> simp
  · intro err
    cases h1 : isFileExist (pathJoin ["/usr/local/share".toList, rel]) <;>
      cases h2 : isFileExist (pathJoin ["/usr/share".toList, rel]) <;> simp
    intro h; exact h.symm
  · intro h; exact ⟨(pathJoin_local rel).2 h, (pathJoin_share rel).2 h⟩

/-- C6 (witness): with `skel.common` under both prefixes the one under
`/usr/local/share` is returned; with the skeletons under `/usr/share` only,
that one; and a skeleton that is under neither is not found. -/
theorem findDatasPath_probe_order_witness :
    findDatasPath bothExist userDataCommon =
        .ok "/usr/local/share/deepin-default-settings/skel.common".toList ∧
      findDatasPath shareOnly userDataCommon =
        .ok "/usr/share/deepin-default-settings/skel.common".toList ∧
      findDatasPath shareOnly (userDataLang "de_DE".toList) =
        .error (.notFound "/usr/share/deepin-default-settings/skel.de_DE".toList) :=
  ⟨((findDatasPath_probe_order bothExist userDataCommon).1 (by decide)).trans (by decide),
    ((findDatasPath_probe_order shareOnly userDataCommon).2.1 (by decide) (by decide)).trans
      (by decide),
    by decide⟩

/-- C7 (counterexample): with `rel = ../../../etc/passwd`, on a file system
where `/etc/passwd` exists, `findDatasPath` succeeds with `/etc/passwd`, which
begins with neither probe prefix. -/
theorem findDatasPath_escapes_prefix :
    findDatasPath onlyPasswd "../../../etc/passwd".toList = .ok "/etc/passwd".toList ∧
      ¬ "/usr/local/share".toList <+: "/etc/passwd".toList ∧
      ¬ "/usr/share".toList <+: "/etc/passwd".toList := by
  refine ⟨by decide, by decide, by decide⟩

/-- C7 (amended): whenever `findDatasPath(rel)` succeeds with path `p`, the
existence predicate holds on `p` and `p` is `path.Join` of one of the two
probe prefixes with `rel`; `p` begins with that prefix whenever `rel` has no
`..` element. -/
theorem findDatasPath_result (isFileExist : List Char → Bool) (rel p : List Char)
    (h : findDatasPath isFileExist rel = .ok p) :
    isFileExist p = true ∧
      (p = pathJoin ["/usr/local/share".toList, rel] ∨
        p = pathJoin ["/usr/share".toList, rel]) ∧
      (NoDotDot rel → "/usr/local/share".toList <+: p ∨ "/usr/share".toList <+: p) := by
  rw [findDatasPath_cases] at h
  by_cases h1 : isFileExist (pathJoin ["/usr/local/share".toList, rel]) = true
  · rw [if_pos h1] at h
    cases h
    exact ⟨h1, Or.inl rfl, fun hrel => Or.inl ((pathJoin_local rel).1 hrel)⟩
  · rw [if_neg h1] at h
    by_cases h2 : isFileExist (pathJoin ["/usr/share".toList, rel]) = true
    · rw [if_pos h2] at h
      cases h
      exact ⟨h2, Or.inr rfl, fun hrel => Or.inr ((pathJoin_share rel).1 hrel)⟩
    · rw [if_neg h2] at h
      cases h

/-- C7 (witness): the locale skeleton `skel.fr_FR` under `/usr/share`. -/
theorem findDatasPath_result_witness :
    shareOnly "/usr/share/deepin-default-settings/skel.fr_FR".toList = true ∧
      ("/usr/local/share".toList <+: "/usr/share/deepin-default-settings/skel.fr_FR".toList ∨
        "/usr/share".toList <+: "/usr/share/deepin-default-settings/skel.fr_FR".toList) :=
  ⟨(findDatasPath_result shareOnly (userDataLang "fr_FR".toList)
      "/usr/share/deepin-default-settings/skel.fr_FR".toList (by decide)).1,
    (findDatasPath_result shareOnly (userDataLang "fr_FR".toList)
      "/usr/share/deepin-default-settings/skel.fr_FR".toList (by decide)).2.2 (by decide)⟩

/-! ## The provisioner -/

theorem lookups_append (a b : List Event) : lookups (a ++ b) = lookups a ++ lookups b := by
  simp [lookups, List.filterMap_append]

theorem lookups_logIfError_debug (r : Except Error Unit) : lookups (logIfError .debug r) = [] := by
  cases r <;> simp [logIfError, lookups]

theorem lookups_logIfError_warning (r : Except Error Unit) :
    lookups (logIfError .warning r) = [] := by
  cases r <;> simp [logIfError, lookups]

theorem lookups_copyCommonDatas {σ : Type} (host : Host σ) (s : σ) (home : List Char) :
    lookups (copyCommonDatas host s home).1 = [userDataCommon] := by
  unfold copyCommonDatas
  cases findDatasPath (host.isFileExist s) userDataCommon <;> simp [lookups]

theorem lookups_copyDatasByLang {σ : Type} (host : Host σ) (s : σ) (home lang : List Char) :
    lookups (copyDatasByLang host s home lang).1 = [userDataLang lang] := by
  unfold copyDatasByLang
  cases findDatasPath (host.isFileExist s) (userDataLang lang) <;> simp [lookups]

theorem lookups_changeFileOwner {σ : Type} (host : Host σ) (s : σ)
    (file owner group : List Char) :
    lookups (changeFileOwner host s file owner group).1 = [] := by
  simp [changeFileOwner, lookups]

/-- The skeletons `copyUserDatas` looks up for an account that resolves. -/
theorem lookups_copyUserDatas {σ : Type} (host : Host σ) (s : σ) (uPath : List Char)
    (info : UserInfo)
    (huser : host.getUserInfoByUid s (host.getUidFromUserPath uPath) = .ok info) :
    lookups (copyUserDatas host s uPath).1 =
      [userDataCommon,
        userDataLang (chosenLang (getDefaultLocale (host.openFile s defaultLocaleFile)))] := by
  unfold copyUserDatas
  simp only [huser, lookups_append, lookups_copyCommonDatas, lookups_copyDatasByLang,
    lookups_changeFileOwner, lookups_logIfError_debug, lookups_logIfError_warning,
    List.append_nil, List.singleton_append]

theorem find_delivered (content : List Char) :
    (deliveredLines content).find? startsWithLang = none ∨
      (deliveredLines content).find? startsWithLang =
        (textLines content).find? startsWithLang := by
  have hsplit : textLines content =
      deliveredLines content ++
        ((linesOf content).dropWhile fun l => decide (byteLen l < maxScanTokenSize)).map
          dropCR := by
    unfold textLines deliveredLines
    rw [← List.map_append, List.takeWhile_append_dropWhile]
  cases hf : (deliveredLines content).find? startsWithLang with
  | none => exact Or.inl rfl
  | some line =>
    right
    rw [hsplit, List.find?_append, hf]
    rfl

theorem takeWhile_dot_eq_nil (rhs : List Char) (h : rhs = [] ∨ rhs.head? = some '.') :
    (rhs.takeWhile fun c => decide (c ≠ '.')) = [] := by
  cases rhs with
  | nil => rfl
  | cons c cs =>
    rcases h with h | h
    · cases h
    · simp only [List.head?_cons, Option.some.injEq] at h
      subst h
      simp [List.takeWhile_cons]

/-- The tag is empty when no line of the file starts with `LANG=` and when
the first such line has an empty right-hand side or one starting with `.`. -/
theorem getDefaultLocale_empty (content : List Char)
    (h : noLangTag (textLines content) = true) :
    getDefaultLocale (.ok content) = .ok [] := by
  rw [getDefaultLocale_eq]
  congr 1
  unfold localeOfLines
  rcases find_delivered content with hd | hd
  · rw [hd]
  · rw [hd]
    cases hf : (textLines content).find? startsWithLang with
    | none => rfl
    | some line =>
      simp only [noLangTag, hf, Bool.or_eq_true, decide_eq_true_eq] at h
      exact takeWhile_dot_eq_nil _ h

/-- C8: for an account that resolves, `copyUserDatas` looks up the common
skeleton and then one locale skeleton: `deepin-default-settings/skel.<tag>`
when `getDefaultLocale` returns a non-empty tag, and
`deepin-default-settings/skel.en_US` when it returns an error or the empty
tag, which is the case when the locale file cannot be opened, when none of
its lines starts with `LANG=`, and when the first such line has an empty
right-hand side or one starting with `.`. -/
theorem copyUserDatas_locale_skeleton {σ : Type} (host : Host σ) (s : σ) (uPath : List Char)
    (info : UserInfo)
    (huser : host.getUserInfoByUid s (host.getUidFromUserPath uPath) = .ok info) :
    (∀ tag, getDefaultLocale (host.openFile s defaultLocaleFile) = .ok tag → tag ≠ [] →
      lookups (copyUserDatas host s uPath).1 =
        [userDataCommon, "deepin-default-settings/skel.".toList ++ tag]) ∧
    ((∃ err, getDefaultLocale (host.openFile s defaultLocaleFile) = .error err) ∨
        getDefaultLocale (host.openFile s defaultLocaleFile) = .ok [] →
      lookups (copyUserDatas host s uPath).1 =
        [userDataCommon, "deepin-default-settings/skel.en_US".toList]) ∧
    (∀ err, host.openFile s defaultLocaleFile = .error err →
      lookups (copyUserDatas host s uPath).1 =
        [userDataCommon, "deepin-default-settings/skel.en_US".toList]) ∧
    (∀ content, host.openFile s defaultLocaleFile = .ok content →
      noLangTag (textLines content) = true →
      lookups (copyUserDatas host s uPath).1 =
        [userDataCommon, "deepin-default-settings/skel.en_US".toList]) := by
  have hen : userDataLang defaultLang = "deepin-default-settings/skel.en_US".toList := by
    decide
  have hempty : getDefaultLocale (host.openFile s defaultLocaleFile) = .ok [] →
      lookups (copyUserDatas host s uPath).1 =
        [userDataCommon, "deepin-default-settings/skel.en_US".toList] := by
    intro h
    rw [lookups_copyUserDatas host s uPath info huser, h, ← hen]
    rfl
  have herr : ∀ err, getDefaultLocale (host.openFile s defaultLocaleFile) = .error err →
      lookups (copyUserDatas host s uPath).1 =
        [userDataCommon, "deepin-default-settings/skel.en_US".toList] := by
    intro err h
    rw [lookups_copyUserDatas host s uPath info huser, h, ← hen]
    rfl
  refine ⟨?_, ?_, ?_, ?_⟩
  · intro tag h hne
    rw [lookups_copyUserDatas host s uPath info huser, h]
    have hlen : ¬ tag.length = 0 := by
      intro h0; exact hne (List.length_eq_zero.1 h0)
    simp only [chosenLang, hlen, if_false, userDataLang]
  · rintro (⟨err, h⟩ | h)
    · exact herr err h
    · exact hempty h
  · intro err h
    apply herr err
    rw [h]; rfl
  · intro content h hcond
    apply hempty
    rw [h]
    exact getDefaultLocale_empty content hcond

/-- C8 (witness): for `alice`, a locale file with `LANG=fr_FR.UTF-8` leads to
`skel.fr_FR`; no locale file, a file without a `LANG=` line, `LANG=` and
`LANG=.UTF-8` lead to `skel.en_US`. -/
theorem copyUserDatas_locale_skeleton_witness :
    lookups (copyUserDatas (aliceHost (.ok "LANG=fr_FR.UTF-8".toList)) () alicePath).1 =
        [userDataCommon, "deepin-default-settings/skel.fr_FR".toList] ∧
      lookups (copyUserDatas (aliceHost (.error .ioError)) () alicePath).1 =
        [userDataCommon, "deepin-default-settings/skel.en_US".toList] ∧
      lookups (copyUserDatas (aliceHost (.ok "LC_ALL=C".toList)) () alicePath).1 =
        [userDataCommon, "deepin-default-settings/skel.en_US".toList] ∧
      lookups (copyUserDatas (aliceHost (.ok "LANG=".toList)) () alicePath).1 =
        [userDataCommon, "deepin-default-settings/skel.en_US".toList] ∧
      lookups (copyUserDatas (aliceHost (.ok "LANG=.UTF-8".toList)) () alicePath).1 =
        [userDataCommon, "deepin-default-settings/skel.en_US".toList] :=
  ⟨((copyUserDatas_locale_skeleton (aliceHost (.ok "LANG=fr_FR.UTF-8".toList)) () alicePath
      { Name := "alice".toList, Home := "/home/alice".toList } (by decide)).1
      "fr_FR".toList (by decide) (by decide)).trans (by decide),
    (copyUserDatas_locale_skeleton (aliceHost (.error .ioError)) () alicePath
      { Name := "alice".toList, Home := "/home/alice".toList } (by decide)).2.2.1
      .ioError (by decide),
    (copyUserDatas_locale_skeleton (aliceHost (.ok "LC_ALL=C".toList)) () alicePath
      { Name := "alice".toList, Home := "/home/alice".toList } (by decide)).2.2.2
      "LC_ALL=C".toList (by decide) (by decide),
    (copyUserDatas_locale_skeleton (aliceHost (.ok "LANG=".toList)) () alicePath
      { Name := "alice".toList, Home := "/home/alice".toList } (by decide)).2.2.2
      "LANG=".toList (by decide) (by decide),
    (copyUserDatas_locale_skeleton (aliceHost (.ok "LANG=.UTF-8".toList)) () alicePath
      { Name := "alice".toList, Home := "/home/alice".toList } (by decide)).2.2.2
      "LANG=.UTF-8".toList (by decide) (by decide)⟩

/-! ## The order of enumeration -/

/-- Two enumerations of the same map give the same outcome of `getDiskCap`. -/
theorem getDiskCap_perm (ms ms' : Managers) (hperm : ms'.Perm ms)
    (hkeys : (ms.map Prod.fst).Nodup) :
    getDiskCap (.ok ms') = getDiskCap (.ok ms) := by
  have hkeys' : (ms'.map Prod.fst).Nodup := (hperm.map Prod.fst).nodup_iff.2 hkeys
  apply getDiskCap_congr
  · constructor
    · intro h e he; exact h e (hperm.mem_iff.2 he)
    · intro h e he; exact h e (hperm.mem_iff.1 he)
  · intro q
    exact (hperm.filterMap fun e => driveRef e.2).mem_iff
  · intro q _
    apply Option.ext
    intro v
    simp only [Option.mem_def]
    rw [lookup_eq_some_iff_mem ms' hkeys', lookup_eq_some_iff_mem ms hkeys, hperm.mem_iff]

/-- C19: for two enumeration orders `ms` and `ms'` of the same map of managed
objects on which the aggregation completes, `getDiskCap` returns the same
value, the sum of the fixed drives modulo `2 ^ 64`; the two recorded drive
lists hold the same paths, possibly in a different order. -/
theorem getDiskCap_order_independent (ms ms' : Managers) (hperm : ms'.Perm ms)
    (hkeys : (ms.map Prod.fst).Nodup) (hc : Completes ms) :
    getDiskCap (.ok ms') = getDiskCap (.ok ms) ∧
      getDiskCap (.ok ms) = .ret (.ok (specDiskCap ms % 2 ^ 64)) ∧
      ∃ l l', recordDrives ms [] = .ret l ∧ recordDrives ms' [] = .ret l' ∧ l'.Perm l := by
  refine ⟨getDiskCap_perm ms ms' hperm hkeys, ?_, ?_⟩
  · rw [getDiskCap_eq, if_pos hc]
  · have ht : ∀ e ∈ ms, blockTyped e.2 = true := hc.1
    have ht' : ∀ e ∈ ms', blockTyped e.2 = true := fun e he => ht e (hperm.mem_iff.1 he)
    refine ⟨recorded ms [], recorded ms' [], recordDrives_typed ms [] ht,
      recordDrives_typed ms' [] ht', ?_⟩
    rw [List.perm_ext_iff_of_nodup (nodup_recorded ms' [] List.nodup_nil)
      (nodup_recorded ms [] List.nodup_nil)]
    intro q
    rw [mem_recorded, mem_recorded]
    simp only [List.not_mem_nil, false_or]
    exact (hperm.filterMap fun e => driveRef e.2).mem_iff

/-- C19 (witness): the snapshot of Probe-disk-dedup enumerated backwards
gives 500 as well; the drive list is recorded in the other order. -/
theorem getDiskCap_order_independent_witness :
    getDiskCap (.ok probeDedup.reverse) = .ret (.ok 500) ∧
      recordDrives probeDedup [] = .ret ["/d/X", "/d/Y"] ∧
      recordDrives probeDedup.reverse [] = .ret ["/d/Y", "/d/X"] :=
  ⟨((getDiskCap_order_independent probeDedup probeDedup.reverse (List.reverse_perm _)
      (by decide) (by decide)).1).trans (by decide),
    by decide, by decide⟩

/-! ## Substring matching of the key -/

theorem getValueByKeyFromFile_notMemTotal (rest : List Char) :
    getValueByKeyFromFile (.ok ("NotMemTotal: 1".toList ++ '\n' :: rest)) "MemTotal".toList
      [':'] = .ok " 1".toList := by
  have hnl : '\n' ∉ "NotMemTotal: 1".toList := by decide
  have hc : stringsContains "NotMemTotal: 1".toList "MemTotal".toList = true := by decide
  have hr : rightHandSide "NotMemTotal: 1".toList [':'] = " 1".toList := by decide
  rw [getValueByKeyFromFile_ok]
  simp only [specReadKey, linesOf, splitChar_append, splitChar_of_not_mem _ _ hnl,
    List.singleton_append, List.find?_cons, hc, hr]

theorem getMemoryCapFromFile_notMemTotal (rest : List Char) :
    getMemoryCapFromFile true (.ok ("NotMemTotal: 1".toList ++ '\n' :: rest)) = .ok 1024 := by
  unfold getMemoryCapFromFile
  rw [getValueByKeyFromFile_notMemTotal]
  decide

theorem newline_not_mem_memTotalLine (k : Nat) (digits : List Char) (hdec : IsDecimal digits) :
    '\n' ∉ memTotalLine k digits := by
  rw [memTotalLine_eq]
  simp only [List.mem_append, List.mem_cons, not_or]
  refine ⟨by decide, by decide, ⟨?_, not_mem_digits '\n' digits hdec.2 (by decide)⟩, by decide⟩
  intro h
  exact absurd (List.eq_of_mem_replicate h) (by decide)

theorem getMemoryCapFromFile_memTotal_first (k : Nat) (digits rest : List Char)
    (hdec : IsDecimal digits) (hlt : decimalValue digits < 2 ^ 64) :
    getMemoryCapFromFile true (.ok (memTotalLine k digits ++ '\n' :: rest)) =
      .ok (decimalValue digits * 1024 % 2 ^ 64) := by
  apply getMemoryCapFromFile_eq _ k digits _ hdec hlt
  simp only [linesOf, splitChar_append,
    splitChar_of_not_mem _ _ (newline_not_mem_memTotalLine k digits hdec),
    List.singleton_append, List.find?_cons, stringsContains_memTotalLine]

/-- C18: the key is matched as a substring of the line.  In a file where the
line `NotMemTotal: 1` comes before the line `MemTotal:<spaces>N kB` with
`N ≠ 1`, `getValueByKeyFromFile` with key `MemTotal` returns the value ` 1` of
the `NotMemTotal` line and `getMemoryCapFromFile` returns 1024, which is not
`N × 1024`; without the `NotMemTotal` line it returns `N × 1024` (modulo
`2 ^ 64`). -/
theorem getMemoryCapFromFile_substring_misparse (k : Nat) (digits : List Char) (N : Nat)
    (rest : List Char) (hdec : IsDecimal digits) (hval : decimalValue digits = N)
    (hlt : N < 2 ^ 64) (hN : N ≠ 1) :
    getValueByKeyFromFile
        (.ok ("NotMemTotal: 1".toList ++ '\n' :: (memTotalLine k digits ++ '\n' :: rest)))
        "MemTotal".toList [':'] = .ok " 1".toList ∧
      getMemoryCapFromFile true
        (.ok ("NotMemTotal: 1".toList ++ '\n' :: (memTotalLine k digits ++ '\n' :: rest))) =
        .ok 1024 ∧
      1024 ≠ N * 1024 ∧
      getMemoryCapFromFile true (.ok (memTotalLine k digits ++ '\n' :: rest)) =
        .ok (N * 1024 % 2 ^ 64) := by
  subst hval
  refine ⟨getValueByKeyFromFile_notMemTotal _, getMemoryCapFromFile_notMemTotal _, ?_,
    getMemoryCapFromFile_memTotal_first k digits rest hdec hlt⟩
  omega

/-- C18 (witness): `NotMemTotal: 1` before `MemTotal:  16384000 kB`. -/
theorem getMemoryCapFromFile_substring_misparse_witness :
    getMemoryCapFromFile true
        (.ok "NotMemTotal: 1\nMemTotal:  16384000 kB\n".toList) = .ok 1024 ∧
      getMemoryCapFromFile true (.ok "MemTotal:  16384000 kB\n".toList) = .ok 16777216000 :=
  ⟨(getMemoryCapFromFile_substring_misparse 2 "16384000".toList 16384000 []
      (by decide) (by decide) (by decide) (by decide)).2.1,
    ((getMemoryCapFromFile_substring_misparse 2 "16384000".toList 16384000 []
      (by decide) (by decide) (by decide) (by decide)).2.2.2).trans (by decide)⟩

/-! ## Assembly and life cycle of the probe -/

theorem gatherRest_ok (logs : List LogEntry) (v p : List Char) (m : Nat) (t : Int) (d : Nat) :
    gatherRest logs v (.ok p) (.ok m) (.ok t) (.ret (.ok d)) =
      .ret (logs, some
        { Version := v, Processor := p, DiskCap := d, MemoryCap := m, SystemType := t }) := rfl

theorem gatherRest_error (logs : List LogEntry) (v : List Char)
    (cpu : Except Error (List Char)) (mem : Except Error Nat) (sysType : Except Error Int)
    (disk : Except Error Nat)
    (h : (∃ e, cpu = .error e) ∨ (∃ e, mem = .error e) ∨ (∃ e, sysType = .error e) ∨
      (∃ e, disk = .error e)) :
    ∃ logs', gatherRest logs v cpu mem sysType (.ret disk) = .ret (logs', none) := by
  unfold gatherRest
  rcases cpu with e1 | p
  · exact ⟨_, rfl⟩
  · rcases mem with e2 | m
    · exact ⟨_, rfl⟩
    · rcases sysType with e3 | t
      · exact ⟨_, rfl⟩
      · rcases disk with e4 | d
        · exact ⟨_, rfl⟩
        · rcases h with ⟨e, h⟩ | ⟨e, h⟩ | ⟨e, h⟩ | ⟨e, h⟩ <;> cases h

/-- C14: with each gathering step given as a value or an error,
`NewSystemInfo` returns an instance exactly when the version step (the
distribution file, or on its failure the LSB release file) and the processor,
memory, system-type and disk steps all succeed, and the five fields are then
the values of the steps; when a step fails it returns no instance. -/
theorem newSystemInfo_all_or_nothing (deepin lsb cpu : Except Error (List Char))
    (mem : Except Error Nat) (sysType : Except Error Int) (disk : Except Error Nat) :
    (∀ v p m t d, versionStep deepin lsb = .ok v → cpu = .ok p → mem = .ok m →
      sysType = .ok t → disk = .ok d →
      ∃ logs, NewSystemInfo deepin lsb cpu mem sysType (.ret disk) =
        .ret (logs, some
          { Version := v, Processor := p, DiskCap := d, MemoryCap := m, SystemType := t })) ∧
    ((∃ e, versionStep deepin lsb = .error e) ∨ (∃ e, cpu = .error e) ∨
        (∃ e, mem = .error e) ∨ (∃ e, sysType = .error e) ∨ (∃ e, disk = .error e) →
      ∃ logs, NewSystemInfo deepin lsb cpu mem sysType (.ret disk) = .ret (logs, none)) ∧
    ((∃ logs inst, NewSystemInfo deepin lsb cpu mem sysType (.ret disk) =
        .ret (logs, some inst)) ↔
      (∃ v p m t d, versionStep deepin lsb = .ok v ∧ cpu = .ok p ∧ mem = .ok m ∧
        sysType = .ok t ∧ disk = .ok d)) := by
  have hok : ∀ v p m t d, versionStep deepin lsb = .ok v → cpu = .ok p → mem = .ok m →
      sysType = .ok t → disk = .ok d →
      ∃ logs, NewSystemInfo deepin lsb cpu mem sysType (.ret disk) =
        .ret (logs, some
          { Version := v, Processor := p, DiskCap := d, MemoryCap := m, SystemType := t }) := by
    intro v p m t d hv hp hm ht hd
    subst hp hm ht hd
    unfold NewSystemInfo
    rcases deepin with e | v'
    · rcases lsb with e' | v''
      · cases hv
      · cases hv
        exact ⟨_, gatherRest_ok _ _ _ _ _ _⟩
    · cases hv
      exact ⟨_, gatherRest_ok _ _ _ _ _ _⟩
  have herr : (∃ e, versionStep deepin lsb = .error e) ∨ (∃ e, cpu = .error e) ∨
        (∃ e, mem = .error e) ∨ (∃ e, sysType = .error e) ∨ (∃ e, disk = .error e) →
      ∃ logs, NewSystemInfo deepin lsb cpu mem sysType (.ret disk) = .ret (logs, none) := by
    intro h
    unfold NewSystemInfo
    rcases deepin with e | v
    · rcases lsb with e' | v'
      · exact ⟨_, rfl⟩
      · rcases h with ⟨e0, h⟩ | h
        · cases h
        · exact gatherRest_error _ _ _ _ _ _ h
    · rcases h with ⟨e0, h⟩ | h
      · cases h
      · exact gatherRest_error _ _ _ _ _ _ h
  refine ⟨hok, herr, ?_⟩
  constructor
  · rintro ⟨logs, inst, h⟩
    rcases hv : versionStep deepin lsb with e | v
    · obtain ⟨l, hl⟩ := herr (Or.inl ⟨e, hv⟩)
      rw [hl] at h; cases h
    · rcases cpu with e | p
      · obtain ⟨l, hl⟩ := herr (Or.inr (Or.inl ⟨e, rfl⟩))
        rw [hl] at h; cases h
      · rcases mem with e | m
        · obtain ⟨l, hl⟩ := herr (Or.inr (Or.inr (Or.inl ⟨e, rfl⟩)))
          rw [hl] at h; cases h
        · rcases sysType with e | t
          · obtain ⟨l, hl⟩ := herr (Or.inr (Or.inr (Or.inr (Or.inl ⟨e, rfl⟩))))
            rw [hl] at h; cases h
          · rcases disk with e | d
            · obtain ⟨l, hl⟩ := herr (Or.inr (Or.inr (Or.inr (Or.inr ⟨e, rfl⟩))))
              rw [hl] at h; cases h
            · exact ⟨v, p, m, t, d, rfl, rfl, rfl, rfl, rfl⟩
  · rintro ⟨v, p, m, t, d, hv, hp, hm, ht, hd⟩
    obtain ⟨logs, h⟩ := hok v p m t d hv hp hm ht hd
    exact ⟨logs, _, h⟩

/-- C14 (witness): with `/etc/deepin-version` missing and `/etc/lsb-release`
holding `DISTRIB_RELEASE=20.3` the instance has Version `20.3`, after a
single warning; with `/proc/meminfo` missing there is no instance. -/
theorem newSystemInfo_all_or_nothing_witness :
    (∃ logs, NewSystemInfo (getVersionFromDeepin false (.ok ()) (.ok []) (.ok []))
        (getVersionFromLsb true (.ok "DISTRIB_RELEASE=20.3".toList))
        (getCPUInfoFromFile true (.ok cpuinfoFour))
        (getMemoryCapFromFile true (.ok "MemTotal:  16384000 kB".toList))
        (getSystemType id (.ok "x86_64\n".toList))
        (.ret (.ok 500)) = .ret (logs, some probeHappy)) ∧
    (∃ logs, NewSystemInfo (getVersionFromDeepin false (.ok ()) (.ok []) (.ok []))
        (getVersionFromLsb true (.ok "DISTRIB_RELEASE=20.3".toList))
        (getCPUInfoFromFile true (.ok cpuinfoFour))
        (getMemoryCapFromFile false (.error .ioError))
        (getSystemType id (.ok "x86_64\n".toList))
        (.ret (.ok 500)) = .ret (logs, none)) ∧
    NewSystemInfo (getVersionFromDeepin false (.ok ()) (.ok []) (.ok []))
        (getVersionFromLsb true (.ok "DISTRIB_RELEASE=20.3".toList))
        (getCPUInfoFromFile true (.ok cpuinfoFour))
        (getMemoryCapFromFile true (.ok "MemTotal:  16384000 kB".toList))
        (getSystemType id (.ok "x86_64\n".toList))
        (getDiskCap (.ok probeDedup)) = .ret ([.warning .fileNotExist], some probeHappy) :=
  ⟨(newSystemInfo_all_or_nothing _ _ _ _ _ _).1 "20.3".toList "Intel Xeon x 4".toList
      16777216000 64 500 (by decide) (by decide) (by decide) (by decide) rfl,
    (newSystemInfo_all_or_nothing _ _ _ _ _ _).2.1
      (Or.inr (Or.inr (Or.inl ⟨.fileNotExist, by decide⟩))),
    by decide⟩

/-- C15 (the code at the failing input): `/etc/deepin-version` is missing and
`/etc/lsb-release` exists without a `DISTRIB_RELEASE` line (or with one that
does not split into two parts on `=`).  `getVersionFromLsb` returns the empty
string with no error and `NewSystemInfo` returns an instance whose Version is
empty; for an empty value `getMemoryCapFromFile` returns `errValueNull`. -/
theorem getVersionFromLsb_empty_version :
    getVersionFromLsb true (.ok "DISTRIB_ID=Deepin\n".toList) = .ok [] ∧
      getVersionFromLsb true (.ok "DISTRIB_RELEASE=20=3\n".toList) = .ok [] ∧
      NewSystemInfo (getVersionFromDeepin false (.ok ()) (.ok []) (.ok []))
          (getVersionFromLsb true (.ok "DISTRIB_ID=Deepin\n".toList))
          (.ok "Intel Xeon".toList) (.ok 16777216000) (.ok 64) (.ret (.ok 500)) =
        .ret ([.warning .fileNotExist], some
          { Version := [], Processor := "Intel Xeon".toList, DiskCap := 500,
            MemoryCap := 16777216000, SystemType := 64 }) ∧
      getMemoryCapFromFile true (.ok "MemFree: 1 kB\n".toList) = .error .valueNull := by
  refine ⟨by decide, by decide, by decide, by decide⟩

/-- C17: `Start` while an instance is held does nothing and leaves that
same instance held; `Stop` while no instance is held does nothing; after
`Stop` no instance is held. -/
theorem start_stop_idle (newSystemInfo : Run (List LogEntry × Option SystemInfo))
    (installOnSession : Option SystemInfo → Except Error Unit) :
    (∀ held, Start newSystemInfo installOnSession (some held) = .ret ([], some held)) ∧
      Stop none = ([], none) ∧
      (∀ sysInfo, (Stop sysInfo).2 = none) := by
  refine ⟨fun held => rfl, rfl, ?_⟩
  intro sysInfo
  cases sysInfo <;> rfl

/-! ## The steps of the provisioner -/

theorem actions_append (a b : List Event) : actions (a ++ b) = actions a ++ actions b := by
  simp [actions, List.filter_append]

theorem actions_logIfError_debug (r : Except Error Unit) : actions (logIfError .debug r) = [] := by
  cases r <;> simp [logIfError, actions, isAction]

theorem actions_logIfError_warning (r : Except Error Unit) :
    actions (logIfError .warning r) = [] := by
  cases r <;> simp [logIfError, actions, isAction]

theorem copyCommonDatas_attempt {σ : Type} (host : Host σ) (s : σ) (home : List Char) :
    actions (copyCommonDatas host s home).1 = copyAttempt host s userDataCommon home ∧
      (copyCommonDatas host s home).2.2 = stateAfterAttempt host s userDataCommon home := by
  unfold copyCommonDatas copyAttempt stateAfterAttempt
  cases findDatasPath (host.isFileExist s) userDataCommon <;> simp [actions, isAction]

theorem copyDatasByLang_attempt {σ : Type} (host : Host σ) (s : σ) (home lang : List Char) :
    actions (copyDatasByLang host s home lang).1 =
        copyAttempt host s (userDataLang lang) home ∧
      (copyDatasByLang host s home lang).2.2 =
        stateAfterAttempt host s (userDataLang lang) home := by
  unfold copyDatasByLang copyAttempt stateAfterAttempt
  cases findDatasPath (host.isFileExist s) (userDataLang lang) <;> simp [actions, isAction]

theorem actions_changeFileOwner {σ : Type} (host : Host σ) (s : σ)
    (file owner group : List Char) :
    actions (changeFileOwner host s file owner group).1 =
      [.chown ["-hR".toList, owner ++ [':'] ++ group, file]] := by
  simp [changeFileOwner, actions, isAction]

/-- C16: when the user id resolves, what `copyUserDatas` does on the host
is, in this order, the attempt to copy the common skeleton into the home
directory, the attempt to copy the locale skeleton into it, and one run of
`chown -hR name:name home`, whatever the results of the locale file, the
lookups, the copies and `chown` are; the run of `chown` is the last action.
When the user id does not resolve, it logs a warning and does nothing else.
The function has no result, so no error reaches its caller. -/
theorem copyUserDatas_steps {σ : Type} (host : Host σ) (s : σ) (uPath : List Char) :
    (∀ info, host.getUserInfoByUid s (host.getUidFromUserPath uPath) = .ok info →
      actions (copyUserDatas host s uPath).1 =
          copyAttempt host s userDataCommon info.Home ++
            copyAttempt host (stateAfterAttempt host s userDataCommon info.Home)
              (userDataLang (chosenLang (getDefaultLocale (host.openFile s defaultLocaleFile))))
              info.Home ++
            [.chown ["-hR".toList, info.Name ++ [':'] ++ info.Name, info.Home]] ∧
        (actions (copyUserDatas host s uPath).1).getLast? =
          some (.chown ["-hR".toList, info.Name ++ [':'] ++ info.Name, info.Home])) ∧
    (∀ err, host.getUserInfoByUid s (host.getUidFromUserPath uPath) = .error err →
      copyUserDatas host s uPath = ([.warning], s) ∧
        actions (copyUserDatas host s uPath).1 = []) := by
  constructor
  · intro info huser
    have h : actions (copyUserDatas host s uPath).1 =
        copyAttempt host s userDataCommon info.Home ++
          copyAttempt host (stateAfterAttempt host s userDataCommon info.Home)
            (userDataLang (chosenLang (getDefaultLocale (host.openFile s defaultLocaleFile))))
            info.Home ++
          [.chown ["-hR".toList, info.Name ++ [':'] ++ info.Name, info.Home]] := by
      unfold copyUserDatas
      simp only [huser, actions_append, actions_logIfError_debug, actions_logIfError_warning,
        actions_changeFileOwner, List.append_nil, (copyCommonDatas_attempt host s info.Home).1,
        (copyCommonDatas_attempt host s info.Home).2, (copyDatasByLang_attempt host _ _ _).1]
    refine ⟨h, ?_⟩
    rw [h, List.getLast?_append]
    rfl
  · intro err huser
    have h : copyUserDatas host s uPath = ([.warning], s) := by
      unfold copyUserDatas
      simp only [huser]
    refine ⟨h, ?_⟩
    rw [h]
    rfl

/-- C16 (witness): on a host where every lookup fails, and on one where both
copies fail, `chown` is still run, last; for an unknown user nothing is
done. -/
theorem copyUserDatas_steps_witness :
    actions (copyUserDatas failingHost () alicePath).1 =
        [.lookup userDataCommon, .lookup "deepin-default-settings/skel.en_US".toList,
          .chown ["-hR".toList, "alice:alice".toList, "/home/alice".toList]] ∧
      actions (copyUserDatas copyFailHost () alicePath).1 =
        [.lookup userDataCommon,
          .copyDir "/usr/share/deepin-default-settings/skel.common".toList "/home/alice".toList,
          .lookup "deepin-default-settings/skel.fr_FR".toList,
          .copyDir "/usr/share/deepin-default-settings/skel.fr_FR".toList "/home/alice".toList,
          .chown ["-hR".toList, "alice:alice".toList, "/home/alice".toList]] ∧
      copyUserDatas failingHost () "/com/deepin/daemon/Accounts/User7".toList =
        ([.warning], ()) :=
  ⟨(((copyUserDatas_steps failingHost () alicePath).1
      { Name := "alice".toList, Home := "/home/alice".toList } (by decide)).1).trans
      (by decide),
    (((copyUserDatas_steps copyFailHost () alicePath).1
      { Name := "alice".toList, Home := "/home/alice".toList } (by decide)).1).trans
      (by decide),
    ((copyUserDatas_steps failingHost () "/com/deepin/daemon/Accounts/User7".toList).2
      (.external "no such user") (by decide)).1⟩

/-! ## The system type -/

theorem getSystemType_cases (table : Char → Char) (out : List Char) :
    getSystemType table (.ok out) =
      if (stringsContains (stringsToLower table out) "i386".toList ||
          stringsContains (stringsToLower table out) "i586".toList ||
          stringsContains (stringsToLower table out) "i686".toList) = true then .ok 32
      else if stringsContains (stringsToLower table out) "x86_64".toList = true then .ok 64
      else .ok 0 := rfl

/-- C13 (counterexample): the output `i686-AT386` (with its newline) is,
lowercased, none of the four machine names, and the system type is 32, not
0. -/
theorem getSystemType_substring :
    stringsToLower id "i686-AT386\n".toList = "i686-at386\n".toList ∧
      getSystemType id (.ok "i686-AT386\n".toList) = .ok 32 := by
  refine ⟨by decide, by decide⟩

/-- C13 (amended): the system type is 32 when the lowercased output of
`uname -m` contains `i386`, `i586` or `i686`, otherwise 64 when it contains
`x86_64`, and otherwise 0; it is always one of 0, 32 and 64.  In particular an
output that is one of the four names in any case of letters, with or without
a trailing newline, gives 32 for the first three and 64 for `x86_64`. -/
theorem getSystemType_of_output (table : Char → Char) (out : List Char) :
    (getSystemType table (.ok out) = .ok 32 ∨ getSystemType table (.ok out) = .ok 64 ∨
      getSystemType table (.ok out) = .ok 0) ∧
    (getSystemType table (.ok out) = .ok 32 ↔
      (stringsContains (stringsToLower table out) "i386".toList = true ∨
        stringsContains (stringsToLower table out) "i586".toList = true ∨
        stringsContains (stringsToLower table out) "i686".toList = true)) ∧
    (getSystemType table (.ok out) = .ok 0 ↔
      (stringsContains (stringsToLower table out) "i386".toList = false ∧
        stringsContains (stringsToLower table out) "i586".toList = false ∧
        stringsContains (stringsToLower table out) "i686".toList = false ∧
        stringsContains (stringsToLower table out) "x86_64".toList = false)) ∧
    (∀ name ∈ ["i386".toList, "i586".toList, "i686".toList],
      stringsToLower table out = name ∨ stringsToLower table out = name ++ ['\n'] →
      getSystemType table (.ok out) = .ok 32) ∧
    (stringsToLower table out = "x86_64".toList ∨
        stringsToLower table out = "x86_64\n".toList →
      getSystemType table (.ok out) = .ok 64) := by
  rw [getSystemType_cases]
  refine ⟨?_, ?_, ?_, ?_, ?_⟩
  · split
    · exact Or.inl rfl
    · split
      · exact Or.inr (Or.inl rfl)
      · exact Or.inr (Or.inr rfl)
  · cases stringsContains (stringsToLower table out) "i386".toList <;>
      cases stringsContains (stringsToLower table out) "i586".toList <;>
      cases stringsContains (stringsToLower table out) "i686".toList <;>
      cases stringsContains (stringsToLower table out) "x86_64".toList <;> decide
  · cases stringsContains (stringsToLower table out) "i386".toList <;>
      cases stringsContains (stringsToLower table out) "i586".toList <;>
      cases stringsContains (stringsToLower table out) "i686".toList <;>
      cases stringsContains (stringsToLower table out) "x86_64".toList <;> decide
  · intro name hname h
    simp only [List.mem_cons, List.mem_singleton, List.not_mem_nil, or_false] at hname
    rcases hname with rfl | rfl | rfl <;> rcases h with h | h <;> rw [h] <;> decide
  · intro h
    rcases h with h | h <;> rw [h] <;> decide

/-- C13 (witness): the output `x86_64` with its newline gives 64, in capital
letters too, and `i686` gives 32. -/
theorem getSystemType_of_output_witness :
    getSystemType id (.ok "x86_64\n".toList) = .ok 64 ∧
      getSystemType id (.ok "X86_64\n".toList) = .ok 64 ∧
      getSystemType id (.ok "i686\n".toList) = .ok 32 :=
  ⟨(getSystemType_of_output id "x86_64\n".toList).2.2.2.2 (Or.inr (by decide)),
    (getSystemType_of_output id "X86_64\n".toList).2.2.2.2 (Or.inr (by decide)),
    (getSystemType_of_output id "i686\n".toList).2.2.2.1 "i686".toList (by decide)
      (Or.inr (by decide))⟩

/-! ## The processor description -/

theorem digitsFuel_eq_decimalOf (fuel : Nat) :
    ∀ n : Nat, n < fuel → digitsFuel fuel n = decimalOf n := by
  induction fuel with
  | zero => intro n h; omega
  | succ fuel ih =>
    intro n h
    rw [digitsFuel, decimalOf]
    by_cases h10 : n < 10
    · rw [if_pos h10, dif_pos h10]
    · rw [if_neg h10, dif_neg h10, ih (n / 10) (by omega)]

theorem formatInt_spec (n : Nat) : IsDecimal (formatInt n) ∧ decimalValue (formatInt n) = n := by
  unfold formatInt
  rw [digitsFuel_eq_decimalOf (n + 1) n (by omega)]
  exact decimalOf_spec n

theorem cpuLoop_eq (lines : List (List Char)) :
    ∀ (info : List Char) (cnt : Nat),
      cpuLoop lines info cnt =
        (if info = [] then
            ((((lines.filter isModelLine).takeWhile splitsInTwo).map
              fun line => rightHandSide line [':']).find? fun v => decide (v ≠ [])).getD []
          else info,
          cnt + ((lines.filter isModelLine).takeWhile splitsInTwo).length) := by
  induction lines with
  | nil => intro info cnt; by_cases h : info = [] <;> simp [cpuLoop, h]
  | cons line rest ih =>
    intro info cnt
    by_cases hm : isModelLine line = true
    · have hm' : stringsContains line "model name".toList = true := hm
      by_cases h2 : splitsInTwo line = true
      · have hlen : (stringsSplit line [':']).length = 2 := by simpa [splitsInTwo] using h2
        have hv : (stringsSplit line [':']).getD 1 [] = rightHandSide line [':'] := by
          unfold rightHandSide
          rcases hs : stringsSplit line [':'] with _ | ⟨a, _ | ⟨b, _ | ⟨c, t⟩⟩⟩ <;>
            simp [hs] at hlen ⊢
        rw [cpuLoop]
        simp only [hm', if_true, hlen, ne_eq, not_true_eq_false, if_false, hv]
        rw [ih, List.filter_cons_of_pos hm, List.takeWhile_cons_of_pos h2]
        by_cases hi : info = []
        · subst hi
          by_cases hr : rightHandSide line [':'] = []
          · simp [hr, List.find?_cons]; omega
          · simp [hr, List.find?_cons]; omega
        · have hl : ¬ info.length = 0 := fun h => hi (List.length_eq_zero.1 h)
          simp [hi, hl]; omega
      · have hlen : ¬ (stringsSplit line [':']).length = 2 := by simpa [splitsInTwo] using h2
        rw [cpuLoop]
        simp only [hm', if_true, ne_eq, hlen, not_false_eq_true]
        rw [List.filter_cons_of_pos hm, List.takeWhile_cons_of_neg h2]
        by_cases hi : info = [] <;> simp [hi]
    · have hm' : ¬ stringsContains line "model name".toList = true := hm
      rw [cpuLoop]
      simp only [hm', Bool.false_eq_true, if_false]
      rw [ih, List.filter_cons_of_neg hm]

/-- The whole of `getCPUInfoFromFile` on a file that is read. -/
theorem getCPUInfoFromFile_eq (contents : List Char) :
    getCPUInfoFromFile true (.ok contents) =
      .ok (stringsTrimSpace
        (if 1 < processorCount contents then
          baseValue contents ++ " x ".toList ++ formatInt (processorCount contents)
        else baseValue contents)) := by
  unfold getCPUInfoFromFile
  simp only [Bool.not_true, Bool.false_eq_true, if_false, stringsSplit_singleton, cpuLoop_eq,
    if_true, Nat.zero_add, gt_iff_lt]
  rfl

/-! ## Trimming -/

theorem head_dropWhile_isSpace (l : List Char) (c : Char)
    (h : (l.dropWhile isSpace).head? = some c) : isSpace c = false := by
  induction l with
  | nil => simp at h
  | cons x xs ih =>
    by_cases hx : isSpace x = true
    · rw [List.dropWhile_cons_of_pos hx] at h
      exact ih h
    · rw [List.dropWhile_cons_of_neg hx] at h
      simp only [List.head?_cons, Option.some.injEq] at h
      subst h
      simpa using hx

theorem getLast_of_dropWhile (l : List Char) (c : Char)
    (h : (l.dropWhile isSpace).getLast? = some c) : l.getLast? = some c := by
  induction l with
  | nil => simp at h
  | cons x xs ih =>
    by_cases hx : isSpace x = true
    · rw [List.dropWhile_cons_of_pos hx] at h
      have hxs := ih h
      cases xs with
      | nil => simp at hxs
      | cons y ys => simpa [List.getLast?_cons_cons] using hxs
    · rw [List.dropWhile_cons_of_neg hx] at h
      exact h

theorem getLast_dropWhile (l : List Char) (c : Char) (h : l.getLast? = some c)
    (hc : isSpace c = false) : (l.dropWhile isSpace).getLast? = some c := by
  induction l with
  | nil => simp at h
  | cons x xs ih =>
    cases xs with
    | nil =>
      simp only [List.getLast?_singleton, Option.some.injEq] at h
      subst h
      simp [List.dropWhile_cons, hc]
    | cons y ys =>
      rw [List.getLast?_cons_cons] at h
      by_cases hx : isSpace x = true
      · rw [List.dropWhile_cons_of_pos hx]
        exact ih h
      · rw [List.dropWhile_cons_of_neg hx, List.getLast?_cons_cons]
        exact h

theorem stringsTrimSpace_ends (s : List Char) :
    (∀ c, (stringsTrimSpace s).head? = some c → isSpace c = false) ∧
      (∀ c, (stringsTrimSpace s).getLast? = some c → isSpace c = false) := by
  unfold stringsTrimSpace
  constructor
  · intro c h
    rw [List.head?_reverse] at h
    have h1 := getLast_of_dropWhile _ c h
    rw [List.getLast?_reverse] at h1
    exact head_dropWhile_isSpace s c h1
  · intro c h
    rw [List.getLast?_reverse] at h
    exact head_dropWhile_isSpace _ c h

theorem dropWhile_append_stop (a b : List Char) (c : Char) (hc : isSpace c = false) :
    (a ++ c :: b).dropWhile isSpace = a.dropWhile isSpace ++ c :: b := by
  induction a with
  | nil => simp [List.dropWhile_cons, hc]
  | cons x xs ih =>
    by_cases hx : isSpace x = true
    · simp only [List.cons_append, List.dropWhile_cons_of_pos hx, ih]
    · simp only [List.cons_append, List.dropWhile_cons_of_neg hx]

theorem dropWhile_append_of_mem (a b : List Char) (c : Char) (hmem : c ∈ a)
    (hc : isSpace c = false) :
    (a ++ b).dropWhile isSpace = a.dropWhile isSpace ++ b := by
  obtain ⟨s, t, rfl⟩ := List.append_of_mem hmem
  rw [List.append_assoc, List.cons_append, dropWhile_append_stop _ _ c hc,
    dropWhile_append_stop _ _ c hc, List.append_assoc, List.cons_append]

theorem trimRight_of_getLast (l : List Char) (c : Char) (h : l.getLast? = some c)
    (hc : isSpace c = false) : (l.reverse.dropWhile isSpace).reverse = l := by
  have hr : l.reverse.head? = some c := by rw [List.head?_reverse]; exact h
  cases hl : l.reverse with
  | nil => rw [hl] at hr; simp at hr
  | cons x xs =>
    rw [hl] at hr
    simp only [List.head?_cons, Option.some.injEq] at hr
    subst hr
    rw [List.dropWhile_cons_of_neg (by simp [hc]), ← hl, List.reverse_reverse]

theorem getLast_append_digits (a digits : List Char) (hdec : IsDecimal digits) :
    ∃ c, (a ++ digits).getLast? = some c ∧ isSpace c = false := by
  obtain ⟨hne, hd⟩ := hdec
  have hlast : (a ++ digits).getLast? = digits.getLast? := by
    rw [List.getLast?_append]
    cases h : digits.getLast? with
    | none => exact absurd (List.getLast?_eq_none_iff.1 h) hne
    | some c => rfl
  cases h : digits.getLast? with
  | none => exact absurd (List.getLast?_eq_none_iff.1 h) hne
  | some c =>
    refine ⟨c, by rw [hlast, h], ?_⟩
    exact isSpace_of_digit c (hd c (List.mem_of_getLast?_eq_some h))

/-- Trimming the description with its count appended. -/
theorem stringsTrimSpace_with_count (info digits : List Char) (hdec : IsDecimal digits) :
    stringsTrimSpace (info ++ " x ".toList ++ digits) =
      (info ++ [' ']).dropWhile isSpace ++ 'x' :: ' ' :: digits := by
  have hx : isSpace 'x' = false := by decide
  have hshape : info ++ " x ".toList ++ digits = (info ++ [' ']) ++ 'x' :: (' ' :: digits) := by
    simp
  obtain ⟨c, hlast, hc⟩ := getLast_append_digits
    ((info ++ [' ']).dropWhile isSpace ++ ['x', ' ']) digits hdec
  have hshape2 : (info ++ [' ']).dropWhile isSpace ++ ['x', ' '] ++ digits =
      (info ++ [' ']).dropWhile isSpace ++ 'x' :: ' ' :: digits := by simp
  rw [hshape2] at hlast
  unfold stringsTrimSpace
  rw [hshape, dropWhile_append_stop _ _ 'x' hx, trimRight_of_getLast _ c hlast hc]

theorem stringsTrimSpace_of_getLast (v : List Char) (c : Char) (h : v.getLast? = some c)
    (hc : isSpace c = false) : stringsTrimSpace v = v.dropWhile isSpace := by
  unfold stringsTrimSpace
  exact trimRight_of_getLast _ c (getLast_dropWhile v c h hc) hc

/-! ## The processor description: the claims -/

/-- C11 (counterexample): three lines contain `model name`; the third does
not split into two parts on `:`, the loop stops there, and the result ends
with ` x 2`, not with ` x 3`. -/
theorem getCPUInfoFromFile_stops_counting :
    (modelLines "model name : A\nmodel name : B\nmodel name : C:D\n".toList).length = 3 ∧
      getCPUInfoFromFile true
          (.ok "model name : A\nmodel name : B\nmodel name : C:D\n".toList) =
        .ok "A x 2".toList := by
  refine ⟨by decide, by decide⟩

/-- C11 (amended): let `N` be the number of counted lines, the lines
containing `model name` before the first of them that does not split into
exactly two parts on `:` (all of them when each splits into two).  When
`N ≤ 1` nothing is appended: the result is the trimmed base value.  When
`N > 1` the result ends with `x N`, with the decimal digits of exactly that
`N`, and with ` x N` when the base value has a character that is not white
space. -/
theorem getCPUInfoFromFile_count (contents : List Char) :
    (processorCount contents ≤ 1 →
      getCPUInfoFromFile true (.ok contents) = .ok (stringsTrimSpace (baseValue contents))) ∧
    (1 < processorCount contents →
      ∃ r, getCPUInfoFromFile true (.ok contents) = .ok r ∧
        ('x' :: ' ' :: formatInt (processorCount contents)) <:+ r ∧
        ((∃ c ∈ baseValue contents, isSpace c = false) →
          (' ' :: 'x' :: ' ' :: formatInt (processorCount contents)) <:+ r)) ∧
    (IsDecimal (formatInt (processorCount contents)) ∧
      decimalValue (formatInt (processorCount contents)) = processorCount contents) ∧
    ((∀ l ∈ modelLines contents, splitsInTwo l = true) →
      processorCount contents = (modelLines contents).length) := by
  refine ⟨?_, ?_, formatInt_spec _, ?_⟩
  · intro h
    rw [getCPUInfoFromFile_eq, if_neg (by omega)]
  · intro h
    refine ⟨_, by rw [getCPUInfoFromFile_eq, if_pos h,
      stringsTrimSpace_with_count _ _ (formatInt_spec _).1], List.suffix_append _ _, ?_⟩
    rintro ⟨c, hmem, hc⟩
    rw [dropWhile_append_of_mem _ _ c hmem hc, List.append_assoc]
    exact List.suffix_append _ _
  · intro h
    unfold processorCount countedLines
    rw [List.takeWhile_eq_self_iff.2 h]

/-- C11 (witness): one `model name` line gives no suffix, two lines give the
suffix ` x 2`. -/
theorem getCPUInfoFromFile_count_witness :
    getCPUInfoFromFile true (.ok "model name : Intel Xeon\n".toList) =
        .ok "Intel Xeon".toList ∧
      ∃ r, getCPUInfoFromFile true
          (.ok "model name : Intel Xeon\nmodel name : Intel Xeon\n".toList) = .ok r ∧
        " x 2".toList <:+ r :=
  ⟨((getCPUInfoFromFile_count "model name : Intel Xeon\n".toList).1 (by decide)).trans
      (by decide),
    ((getCPUInfoFromFile_count
      "model name : Intel Xeon\nmodel name : Intel Xeon\n".toList).2.1 (by decide)).imp
      fun _ h => ⟨h.1, h.2.2 ⟨'I', by decide, by decide⟩⟩⟩

/-- C12 (counterexample): the value of the first `model name` line is
` Intel Xeon ` with a space at its end; trimmed and followed by ` x 2` that
is `Intel Xeon x 2`, but the result has two spaces before the `x`. -/
theorem getCPUInfoFromFile_trims_after_count :
    modelValues "model name : Intel Xeon \nmodel name : Intel Xeon \n".toList =
        [" Intel Xeon ".toList, " Intel Xeon ".toList] ∧
      stringsTrimSpace " Intel Xeon ".toList ++ " x 2".toList = "Intel Xeon x 2".toList ∧
      getCPUInfoFromFile true
          (.ok "model name : Intel Xeon \nmodel name : Intel Xeon \n".toList) =
        .ok "Intel Xeon  x 2".toList := by
  refine ⟨by decide, by decide, by decide⟩

theorem baseValue_of_head (contents v1 : List Char) (rest : List (List Char))
    (h : modelValues contents = v1 :: rest) (hne : v1 ≠ []) : baseValue contents = v1 := by
  unfold baseValue
  rw [h, List.find?_cons_of_pos _ (by simpa using hne)]
  rfl

theorem baseValue_of_single (contents v1 : List Char) (h : modelValues contents = [v1]) :
    baseValue contents = v1 := by
  by_cases hne : v1 = []
  · unfold baseValue
    rw [h, hne]
    rfl
  · exact baseValue_of_head contents v1 [] h hne

theorem stringsTrimSpace_blank_with_count (info digits : List Char)
    (hblank : ∀ c ∈ info, isSpace c = true) (hdec : IsDecimal digits) :
    stringsTrimSpace (info ++ " x ".toList ++ digits) = 'x' :: ' ' :: digits := by
  have hdrop : (info ++ [' ']).dropWhile isSpace = [] := by
    rw [List.dropWhile_eq_nil_iff]
    intro c hc
    rcases List.mem_append.1 hc with h | h
    · exact hblank c h
    · rw [List.mem_singleton] at h
      subst h
      decide
  rw [stringsTrimSpace_with_count info digits hdec, hdrop, List.nil_append]

/-- C12 (amended): the returned string has no leading or trailing white
space.  With one counted line of value `v1` the result is `v1` trimmed.  With
`N > 1` counted lines the result is the base value followed by ` x N`,
trimmed as a whole: when the base value is not empty and its last character
is not white space that is the trimmed base value followed by ` x N`, and
when the base value is empty or all white space it is `x N`.  The base value
is the value of the first counted line when that value is not empty. -/
theorem getCPUInfoFromFile_base (contents : List Char) :
    (∀ r, getCPUInfoFromFile true (.ok contents) = .ok r →
      (∀ c, r.head? = some c → isSpace c = false) ∧
        (∀ c, r.getLast? = some c → isSpace c = false)) ∧
    (∀ v1, modelValues contents = [v1] →
      getCPUInfoFromFile true (.ok contents) = .ok (stringsTrimSpace v1)) ∧
    (1 < processorCount contents →
      getCPUInfoFromFile true (.ok contents) =
        .ok (stringsTrimSpace
          (baseValue contents ++ " x ".toList ++ formatInt (processorCount contents)))) ∧
    (1 < processorCount contents →
      (∃ c, (baseValue contents).getLast? = some c ∧ isSpace c = false) →
      getCPUInfoFromFile true (.ok contents) =
        .ok (stringsTrimSpace (baseValue contents) ++ " x ".toList ++
          formatInt (processorCount contents))) ∧
    (1 < processorCount contents →
      (∀ c ∈ baseValue contents, isSpace c = true) →
      getCPUInfoFromFile true (.ok contents) =
        .ok ('x' :: ' ' :: formatInt (processorCount contents))) ∧
    (∀ v1 rest, modelValues contents = v1 :: rest → v1 ≠ [] → baseValue contents = v1) := by
  refine ⟨?_, ?_, ?_, ?_, ?_, fun v1 rest h hne => baseValue_of_head contents v1 rest h hne⟩
  · intro r h
    rw [getCPUInfoFromFile_eq] at h
    cases h
    exact stringsTrimSpace_ends _
  · intro v1 h
    have hcount : processorCount contents = 1 := by
      have : (modelValues contents).length = 1 := by rw [h]; rfl
      simpa [modelValues, processorCount] using this
    rw [getCPUInfoFromFile_eq, if_neg (by omega), baseValue_of_single contents v1 h]
  · intro h
    rw [getCPUInfoFromFile_eq, if_pos h]
  · rintro h ⟨c, hlast, hc⟩
    have hmem : c ∈ baseValue contents := List.mem_of_getLast?_eq_some hlast
    rw [getCPUInfoFromFile_eq, if_pos h,
      stringsTrimSpace_with_count _ _ (formatInt_spec _).1,
      dropWhile_append_of_mem _ _ c hmem hc,
      stringsTrimSpace_of_getLast _ c hlast hc]
    simp
  · intro h hblank
    rw [getCPUInfoFromFile_eq, if_pos h,
      stringsTrimSpace_blank_with_count _ _ hblank (formatInt_spec _).1]

/-- C12 (witness): four lines `model name : Intel Xeon` give
`Intel Xeon x 4`; two lines `model name:` with an empty value give `x 2`. -/
theorem getCPUInfoFromFile_base_witness :
    getCPUInfoFromFile true (.ok cpuinfoFour) = .ok "Intel Xeon x 4".toList ∧
      getCPUInfoFromFile true (.ok "model name:\nmodel name:\n".toList) = .ok "x 2".toList :=
  ⟨((getCPUInfoFromFile_base cpuinfoFour).2.2.2.1 (by decide)
      ⟨'n', by decide, by decide⟩).trans (by decide),
    ((getCPUInfoFromFile_base "model name:\nmodel name:\n".toList).2.2.2.2.1 (by decide)
      (by decide)).trans (by decide)⟩

end DdeDaemon
